import Mathlib

/-!
Verification development for the US-law MCP extraction-and-retrieval engine.

The repository's query layer runs SQL (SQLite) over stored documents and
provisions; the ingest layer parses legislative HTML into provisions with
JavaScript regular expressions.  This file gives a shallow embedding of the
relevant functions:

* SQLite `LIKE ... ESCAPE '\'` pattern matching (ASCII-case-insensitive),
  modelled on `List Char`;
* the section resolver of `src/tools/get-provision.ts` (exact match, then
  bidirectional `LIKE`-prefix fallback), over an explicit list of joined
  provision rows standing for the `legal_provisions ⋈ legal_documents` table;
* the citation validator of `src/tools/validate-citation.ts` with its tiered
  match qualities;
* the cross-jurisdiction comparator (`compareRequirements`) and the
  jurisdiction validator of `src/utils/validate.ts`;
* the search caller of `src/tools/search-legislation.ts` over an abstract
  full-text index, with the query-variant builder modelled from the spec
  (its source file is not part of the snapshot);
* the text-level cores of the three HTML parsers
  (`scripts/parsers/simple-html.ts`, `legislature.ts`, `leginfo.ts`): the
  JavaScript regexes are compiled by hand into deterministic scanners
  (each analysed to need no backtracking beyond what is implemented).

Strings are modelled as `List Char` wherever character-level scanning
happens.  JavaScript string indices count UTF-16 units while `List Char`
counts code points; the two agree on all Basic-Multilingual-Plane text,
which covers every construct these parsers look for.  SQL result order for
`ORDER BY` ties and `LIMIT 1` without `ORDER BY` is modelled as stored list
order.
-/

/-! ## Character helpers -/

/-- ASCII lower-casing, as done by SQLite's `NOCASE` / `LIKE` comparator and
by `LOWER()` (both fold only `A`–`Z`). -/
def toLowerAscii (c : Char) : Char :=
  if 'A' ≤ c && c ≤ 'Z' then Char.ofNat (c.toNat + 32) else c

/-- ASCII case folding of a character list. -/
def foldCase (l : List Char) : List Char := l.map toLowerAscii

/-- JavaScript `\s` (and `String.prototype.trim`) whitespace class. -/
def isJsSpace (c : Char) : Bool :=
  c == ' ' || c == '\t' || c == '\n' || c == '\r' || c.toNat == 0xb ||
  c.toNat == 0xc || c.toNat == 0xa0 || c.toNat == 0x1680 ||
  (0x2000 ≤ c.toNat && c.toNat ≤ 0x200a) ||
  c.toNat == 0x2028 || c.toNat == 0x2029 || c.toNat == 0x202f ||
  c.toNat == 0x205f || c.toNat == 0x3000 || c.toNat == 0xfeff

/-- JavaScript `\d`. -/
def isJsDigit (c : Char) : Bool := '0' ≤ c && c ≤ '9'

/-- JavaScript `[a-zA-Z]`. -/
def isAsciiLetter (c : Char) : Bool := ('a' ≤ c && c ≤ 'z') || ('A' ≤ c && c ≤ 'Z')

/-- JavaScript `\w`: `[A-Za-z0-9_]`. -/
def isWordChar (c : Char) : Bool := isAsciiLetter c || isJsDigit c || c == '_'

/-- The character class `[\w.-]` used by the section-number regexes. -/
def isSecChar (c : Char) : Bool := isWordChar c || c == '.' || c == '-'

/-- JavaScript `String.prototype.trim` on a character list. -/
def jsTrim (l : List Char) : List Char :=
  ((l.dropWhile isJsSpace).reverse.dropWhile isJsSpace).reverse

/-! ## SQLite `LIKE` with `ESCAPE '\'`

Faithful model of SQLite's `patternCompare` for `LIKE`: `%` matches any
sequence, `_` any single character, a backslash makes the next pattern
character literal (a trailing backslash fails the whole match), and
ordinary characters (escaped ones included) compare
ASCII-case-insensitively. -/

/-- Try `f` on every suffix of the string: the semantics of a `%` in the
pattern. -/
def starHelper (f : List Char → Bool) : List Char → Bool
  | [] => f []
  | c :: s' => f (c :: s') || starHelper f s'

/-- One token of a `LIKE` pattern after resolving escapes. -/
inductive LikeTok where
  | percent
  | underscore
  | lit (c : Char)
deriving DecidableEq, Repr

/-- Tokenize a `LIKE ... ESCAPE '\'` pattern: a backslash makes the next
character a literal; a trailing backslash is a malformed pattern (SQLite
fails the whole match, modelled as `none`). -/
def likeToks : List Char → Option (List LikeTok)
  | [] => some []
  | pc :: ps =>
    if pc = '\\' then
      match ps with
      | [] => none
      | e :: ps' => (likeToks ps').map (fun ts => LikeTok.lit e :: ts)
    else
      (likeToks ps).map (fun ts =>
        (if pc = '%' then LikeTok.percent
         else if pc = '_' then LikeTok.underscore
         else LikeTok.lit pc) :: ts)

/-- Token-level matcher (ASCII-case-insensitive literals). -/
def tokMatch : List LikeTok → List Char → Bool
  | [], s => s.isEmpty
  | LikeTok.percent :: ts, s => starHelper (tokMatch ts) s
  | LikeTok.underscore :: ts, s =>
    match s with
    | [] => false
    | _ :: s' => tokMatch ts s'
  | LikeTok.lit c :: ts, s =>
    match s with
    | [] => false
    | d :: s' => (toLowerAscii c == toLowerAscii d) && tokMatch ts s'

/-- `s LIKE p ESCAPE '\'`. -/
def likeMatch (s p : List Char) : Bool :=
  match likeToks p with
  | none => false
  | some ts => tokMatch ts s

/-- The wildcard escaping `value.replace(/[%_]/g, '\\$&')` used on the
requested section number in `get-provision.ts` and on the citation in
`validate-citation.ts`.  Note it does NOT escape backslashes. -/
def escapeWild : List Char → List Char
  | [] => []
  | c :: cs => (if c = '%' ∨ c = '_' then ['\\', c] else [c]) ++ escapeWild cs

/-- `a` is an ASCII-case-insensitive prefix of `b`. -/
def ciStartsWith (a b : List Char) : Bool := List.isPrefixOf (foldCase a) (foldCase b)

/-- A string free of the three characters special to `LIKE ... ESCAPE '\'`. -/
def likeClean (l : List Char) : Prop := ∀ c ∈ l, c ≠ '%' ∧ c ≠ '_' ∧ c ≠ '\\'

instance (l : List Char) : Decidable (likeClean l) := by
  unfold likeClean; infer_instance

theorem ciStartsWith_nil (s : List Char) : ciStartsWith [] s = true := by
  cases s <;> rfl

theorem ciStartsWith_cons (c d : Char) (a b : List Char) :
    ciStartsWith (c :: a) (d :: b)
      = ((toLowerAscii c == toLowerAscii d) && ciStartsWith a b) := rfl

theorem likeToks_esc (x : Char) (xs : List Char) :
    likeToks ('\\' :: x :: xs) = (likeToks xs).map (fun ts => LikeTok.lit x :: ts) := rfl

theorem likeToks_ord (x : Char) (xs : List Char) (h : x ≠ '\\') :
    likeToks (x :: xs) = (likeToks xs).map (fun ts =>
      (if x = '%' then LikeTok.percent
       else if x = '_' then LikeTok.underscore
       else LikeTok.lit x) :: ts) := by
  rw [likeToks.eq_def]
  simp only [if_neg h]

/-- Tokenizing the escaped needle followed by `%` yields one literal token
per needle character plus a final `%`. -/
theorem likeToks_escapeWild (r : List Char) (h : '\\' ∉ r) :
    likeToks (escapeWild r ++ ['%'])
      = some (r.map LikeTok.lit ++ [LikeTok.percent]) := by
  induction r with
  | nil => rfl
  | cons c r ih =>
    have hc : c ≠ '\\' := by rintro rfl; exact h (List.mem_cons_self _ _)
    have hr : '\\' ∉ r := fun hm => h (List.mem_cons_of_mem _ hm)
    by_cases hw : c = '%' ∨ c = '_'
    · have hesc : escapeWild (c :: r) ++ ['%'] = '\\' :: c :: (escapeWild r ++ ['%']) := by
        simp [escapeWild, if_pos hw]
      rw [hesc, likeToks_esc, ih hr]
      rfl
    · have hesc : escapeWild (c :: r) ++ ['%'] = c :: (escapeWild r ++ ['%']) := by
        simp [escapeWild, if_neg hw]
      push_neg at hw
      rw [hesc, likeToks_ord c _ hc, ih hr]
      simp [hw.1, hw.2]

theorem starHelper_empty (s : List Char) : starHelper (tokMatch []) s = true := by
  induction s with
  | nil => rfl
  | cons c s ih => simp [starHelper, ih]

/-- Matching a list of literal tokens followed by `%` is the
case-insensitive prefix test. -/
theorem tokMatch_lits_pct (r s : List Char) :
    tokMatch (r.map LikeTok.lit ++ [LikeTok.percent]) s = ciStartsWith r s := by
  induction r generalizing s with
  | nil =>
    rw [ciStartsWith_nil]
    simpa [tokMatch] using starHelper_empty s
  | cons c r ih =>
    cases s with
    | nil => rfl
    | cons d s' =>
      rw [ciStartsWith_cons]
      show ((toLowerAscii c == toLowerAscii d)
          && tokMatch (r.map LikeTok.lit ++ [LikeTok.percent]) s') = _
      rw [ih s']

/-- Core characterization: with a backslash-free needle `r`, matching against
the pattern `escapeWild r ++ "%"` is exactly the ASCII-case-insensitive
prefix test — request-side wildcards are neutralized by the escaping. -/
theorem likeMatch_escaped_prefix_eq (r s : List Char) (h : '\\' ∉ r) :
    likeMatch s (escapeWild r ++ ['%']) = ciStartsWith r s := by
  unfold likeMatch
  rw [likeToks_escapeWild r h]
  exact tokMatch_lits_pct r s

/-- On a `likeClean` string the escaping is the identity. -/
theorem escapeWild_clean (l : List Char) (h : likeClean l) : escapeWild l = l := by
  induction l with
  | nil => rfl
  | cons c cs ih =>
    have hc := h c (List.mem_cons_self _ _)
    have hcs : likeClean cs := fun x hx => h x (List.mem_cons_of_mem _ hx)
    have : ¬ (c = '%' ∨ c = '_') := by
      rintro (rfl | rfl)
      · exact hc.1 rfl
      · exact hc.2.1 rfl
    simp [escapeWild, this, ih hcs]

/-- `likeClean` strings contain no backslash. -/
theorem likeClean_no_backslash {l : List Char} (h : likeClean l) : '\\' ∉ l :=
  fun hm => ((h _ hm).2.2) rfl

/-! ## Section resolver (`src/tools/get-provision.ts`)

The database is modelled as the list of joined rows of
`legal_provisions AS p JOIN legal_documents AS d ON p.document_id = d.id`.
`NULL`-able columns are `Option String`; SQL `=` and `LIKE` on `NULL`
evaluate to false.  `ORDER BY p.order_index` is a stable sort. -/

/-- One row of the provision/document join. -/
structure ProvRow where
  jurisdiction : String
  doc_jurisdiction : String
  doc_title : String
  doc_identifier : Option String
  doc_short_name : Option String
  section_number : Option String
  title : Option String
  text : String
  order_index : Nat
deriving DecidableEq, Repr

/-- JavaScript truthiness of an optional string (`undefined` and `""` are
falsy). -/
def jsStr (v : Option String) : Bool := !(v.getD "" == "")

/-- Input of the `get_provision` tool. -/
structure GetProvisionInput where
  law_identifier : Option String := none
  short_name : Option String := none
  section_number : Option String := none
  jurisdiction : String
deriving DecidableEq, Repr

/-- Stable insertion into a sorted list (model of SQL `ORDER BY`). -/
def sortedInsert (le : α → α → Bool) (a : α) : List α → List α
  | [] => [a]
  | b :: bs => if le a b then a :: b :: bs else b :: sortedInsert le a bs

/-- Stable insertion sort (model of SQL `ORDER BY`). -/
def sortByKey (le : α → α → Bool) : List α → List α
  | [] => []
  | a :: as => sortedInsert le a (sortByKey le as)

/-- Comparison used by `ORDER BY p.order_index`. -/
def rowLe (a b : ProvRow) : Bool := a.order_index ≤ b.order_index

/-- The escaping `escapeLike` of `get-provision.ts`
(`value.replace(/[\\%_]/g, '\\$&')` — backslash included, unlike
`escapeWild`). -/
def escapeLikeFull : List Char → List Char
  | [] => []
  | c :: cs => (if c = '\\' ∨ c = '%' ∨ c = '_' then ['\\', c] else [c]) ++ escapeLikeFull cs

/-- `buildShortNameFilter`: the four-way disjunction on `d.short_name`. -/
def shortNameFilter (sn : String) (r : ProvRow) : Bool :=
  let esc := escapeLikeFull (jsTrim sn.data)
  (match r.doc_short_name with
   | none => false
   | some s => foldCase s.data == foldCase sn.data) ||
  (match r.doc_short_name with
   | none => false
   | some s => likeMatch s.data (esc ++ ['%'])) ||
  (match r.doc_short_name with
   | none => false
   | some s => likeMatch (foldCase sn.data) (foldCase s.data ++ ['%'])) ||
  ((4 ≤ sn.data.length : Bool) &&
   (match r.doc_short_name with
    | none => false
    | some s => likeMatch s.data ('%' :: (esc ++ ['%']))))

/-- `buildDocumentFilter`: identifier filter, short-name filter, or none. -/
def docFilterMatches (input : GetProvisionInput) (r : ProvRow) : Bool :=
  if jsStr input.law_identifier then
    match r.doc_identifier with
    | none => false
    | some s => s == input.law_identifier.getD ""
  else if jsStr input.short_name then
    shortNameFilter (input.short_name.getD "") r
  else true

/-- The `WHERE` scope shared by all three `get_provision` queries:
`d.jurisdiction = ?` plus the document filter. -/
def provScope (input : GetProvisionInput) (r : ProvRow) : Bool :=
  r.doc_jurisdiction == input.jurisdiction && docFilterMatches input r

/-- Step 1 of the resolver: `p.section_number = ?` (binary equality). -/
def sectionExactRows (rows : List ProvRow) (input : GetProvisionInput) (sect : String) :
    List ProvRow :=
  sortByKey rowLe (rows.filter (fun r =>
    provScope input r &&
    (match r.section_number with
     | none => false
     | some s => s == sect)))

/-- Step 2 of the resolver, exactly as the SQL has it:
`? LIKE p.section_number || '%' ESCAPE '\'` (stored value used as an
unescaped pattern) `OR p.section_number LIKE ? || '%' ESCAPE '\'`
(request escaped by `escapeWild`). -/
def sectionFallbackRows (rows : List ProvRow) (input : GetProvisionInput) (sect : String) :
    List ProvRow :=
  sortByKey rowLe (rows.filter (fun r =>
    provScope input r &&
    (match r.section_number with
     | none => false
     | some st => likeMatch sect.data (st.data ++ ['%']) ||
                  likeMatch st.data (escapeWild sect.data ++ ['%']))))

/-- `getProvision` (the `results` list it computes), from
`src/tools/get-provision.ts` lines 105–204. -/
def getProvision (rows : List ProvRow) (input : GetProvisionInput) : List ProvRow :=
  if !jsStr input.law_identifier && !jsStr input.short_name then []
  else if jsStr input.section_number then
    if (sectionExactRows rows input (input.section_number.getD "")).isEmpty
    then sectionFallbackRows rows input (input.section_number.getD "")
    else sectionExactRows rows input (input.section_number.getD "")
  else
    sortByKey rowLe (rows.filter (provScope input))

/-- The spec-level reading of the hierarchical fallback: bidirectional
ASCII-case-insensitive string-prefix test on the stored section number
against the request. -/
def fallbackSpecRows (rows : List ProvRow) (input : GetProvisionInput) (sect : String) :
    List ProvRow :=
  sortByKey rowLe (rows.filter (fun r =>
    provScope input r &&
    (match r.section_number with
     | none => false
     | some st => ciStartsWith st.data sect.data || ciStartsWith sect.data st.data)))

/-- Under `LIKE`-clean section numbers, the SQL fallback coincides with the
bidirectional case-insensitive prefix test. -/
theorem sectionFallbackRows_eq_spec (rows : List ProvRow) (input : GetProvisionInput)
    (sect : String) (hclean : likeClean sect.data)
    (hrows : ∀ r ∈ rows, likeClean ((r.section_number.getD "").data)) :
    sectionFallbackRows rows input sect = fallbackSpecRows rows input sect := by
  unfold sectionFallbackRows fallbackSpecRows
  congr 1
  apply List.filter_congr
  intro r hr
  cases hsn : r.section_number with
  | none => simp
  | some st =>
    have hst : likeClean st.data := by
      have := hrows r hr
      rwa [hsn, Option.getD_some] at this
    have h1 : likeMatch sect.data (st.data ++ ['%']) = ciStartsWith st.data sect.data := by
      have h := likeMatch_escaped_prefix_eq st.data sect.data (likeClean_no_backslash hst)
      rwa [escapeWild_clean st.data hst] at h
    have h2 : likeMatch st.data (escapeWild sect.data ++ ['%'])
        = ciStartsWith sect.data st.data :=
      likeMatch_escaped_prefix_eq sect.data st.data (likeClean_no_backslash hclean)
    simp [h1, h2]

/-- Claim C1 (amended).  For every scope and requested section number, the
resolver runs the exact-equality step first and the fallback only when the
exact step is empty.  Provided the requested and all stored section numbers
are free of the `LIKE`-special characters `%`, `_` and `\`, the fallback
returns exactly the provisions in scope whose stored section number is an
ASCII-case-insensitive prefix of the request or of which the request is an
ASCII-case-insensitive prefix (both directions non-strict), ordered by
stored ordinal position.  (As stated originally — exact literal prefixes,
with the stored value never treated as a pattern — the claim fails; see the
counterexample.) -/
theorem getProvision_exact_then_ci_prefix_fallback
    (rows : List ProvRow) (input : GetProvisionInput) (sect : String)
    (hid : (jsStr input.law_identifier || jsStr input.short_name) = true)
    (hsect : input.section_number = some sect) (hne : sect ≠ "")
    (hclean : likeClean sect.data)
    (hrows : ∀ r ∈ rows, likeClean ((r.section_number.getD "").data)) :
    getProvision rows input =
      if (sectionExactRows rows input sect).isEmpty
      then fallbackSpecRows rows input sect
      else sectionExactRows rows input sect := by
  have h1 : (!jsStr input.law_identifier && !jsStr input.short_name) = false := by
    cases hli : jsStr input.law_identifier <;>
      cases hsn2 : jsStr input.short_name <;> simp_all
  have h2 : jsStr input.section_number = true := by
    rw [hsect]
    simpa [jsStr] using hne
  unfold getProvision
  rw [h1, h2, hsect]
  simp only [Option.getD_some, Bool.false_eq_true, if_false, if_true]
  by_cases hE : (sectionExactRows rows input sect).isEmpty
  · simp [hE, sectionFallbackRows_eq_spec rows input sect hclean hrows]
  · simp [hE]

/-- Row with a stored section number containing the `LIKE` wildcard `_`. -/
def exC1Row : ProvRow :=
  { jurisdiction := "US-CA", doc_jurisdiction := "US-CA", doc_title := "Demo Act",
    doc_identifier := some "DEMO", doc_short_name := some "Demo",
    section_number := some "3_", title := none, text := "child", order_index := 1 }

/-- Request that is prefix-unrelated to the stored `"3_"`. -/
def exC1Input : GetProvisionInput :=
  { law_identifier := some "DEMO", jurisdiction := "US-CA", section_number := some "3Q" }

/-- Row whose stored section number extends the request by one character
after a backslash. -/
def exC1RowB : ProvRow :=
  { jurisdiction := "US-CA", doc_jurisdiction := "US-CA", doc_title := "Demo Act",
    doc_identifier := some "DEMO", doc_short_name := some "Demo",
    section_number := some "a\\b", title := none, text := "child", order_index := 1 }

/-- Request that is a strict literal prefix of the stored `"a\b"`. -/
def exC1InputB : GetProvisionInput :=
  { law_identifier := some "DEMO", jurisdiction := "US-CA", section_number := some "a\\" }

/-- Claim C1, as stated, is false on the code: the fallback returns the row
stored as `"3_"` for the request `"3Q"` although neither is a literal
prefix of the other (the stored value acts as a `LIKE` pattern), and it
misses the row stored as `"a\b"` for the request `"a\"` although the
request is a strict literal prefix of it (the request's backslash corrupts
the escaped pattern). -/
theorem getProvision_prefix_fallback_claim_false :
    getProvision [exC1Row] exC1Input = [exC1Row]
    ∧ List.isPrefixOf "3Q".data "3_".data = false
    ∧ List.isPrefixOf "3_".data "3Q".data = false
    ∧ getProvision [exC1RowB] exC1InputB = []
    ∧ List.isPrefixOf "a\\".data "a\\b".data = true
    ∧ "a\\" ≠ "a\\b" := by
  refine ⟨by decide, by decide, by decide, by decide, by decide, by decide⟩

/-- Stored child provisions for the claim's second example. -/
def exC1WRowA : ProvRow :=
  { jurisdiction := "US-CA", doc_jurisdiction := "US-CA", doc_title := "Demo Act",
    doc_identifier := some "DEMO", doc_short_name := some "Demo",
    section_number := some "§ 1.1(a)", title := none, text := "sub a", order_index := 1 }

def exC1WRowB : ProvRow :=
  { jurisdiction := "US-CA", doc_jurisdiction := "US-CA", doc_title := "Demo Act",
    doc_identifier := some "DEMO", doc_short_name := some "Demo",
    section_number := some "§ 1.1(b)", title := none, text := "sub b", order_index := 2 }

def exC1WInput : GetProvisionInput :=
  { law_identifier := some "DEMO", jurisdiction := "US-CA", section_number := some "§ 1.1" }

/-- Stored parent provision for the claim's first example. -/
def exC1WParent : ProvRow :=
  { jurisdiction := "US-CA", doc_jurisdiction := "US-CA", doc_title := "Demo Act",
    doc_identifier := some "DEMO", doc_short_name := some "Demo",
    section_number := some "§ 1.1", title := none, text := "parent", order_index := 1 }

def exC1WInputP : GetProvisionInput :=
  { law_identifier := some "DEMO", jurisdiction := "US-CA",
    section_number := some "§ 1.1(a)" }

/-- Witness for the amended C1, instantiating both examples of the claim:
a request for `§ 1.1` returns both stored children, and a request for
`§ 1.1(a)` returns the stored parent. -/
theorem getProvision_exact_then_ci_prefix_fallback_witness :
    getProvision [exC1WRowA, exC1WRowB] exC1WInput = [exC1WRowA, exC1WRowB]
    ∧ getProvision [exC1WParent] exC1WInputP = [exC1WParent] := by
  have h1 := getProvision_exact_then_ci_prefix_fallback [exC1WRowA, exC1WRowB]
    exC1WInput "§ 1.1" (by decide) (by decide) (by decide) (by decide) (by decide)
  have h2 := getProvision_exact_then_ci_prefix_fallback [exC1WParent]
    exC1WInputP "§ 1.1(a)" (by decide) (by decide) (by decide) (by decide) (by decide)
  rw [h1, h2]
  exact ⟨by decide, by decide⟩

/-- Claim C5 (amended).  Only the requested section number is escaped before
use in the fallback, and only in the direction where the request forms the
pattern: for a backslash-free request, `p.section_number LIKE request||'%'`
is the literal (ASCII-case-insensitive) prefix test, with `%` and `_` in
the request neutralized.  In the other direction the stored section number
is used as an unescaped pattern, so a stored `"1%"` wildcard-matches the
request `"1A"`. -/
theorem sectionEscape_request_side_only (sect st : String) (h : '\\' ∉ sect.data) :
    likeMatch st.data (escapeWild sect.data ++ ['%']) = ciStartsWith sect.data st.data
    ∧ likeMatch "1A".data ("1%".data ++ ['%']) = true
    ∧ ciStartsWith "1%".data "1A".data = false :=
  ⟨likeMatch_escaped_prefix_eq sect.data st.data h, by decide, by decide⟩

/-- Witness for the amended C5 at a concrete request and stored value. -/
theorem sectionEscape_request_side_only_witness :
    likeMatch "ABC".data (escapeWild "AB".data ++ ['%']) = ciStartsWith "AB".data "ABC".data
    ∧ likeMatch "1A".data ("1%".data ++ ['%']) = true
    ∧ ciStartsWith "1%".data "1A".data = false :=
  sectionEscape_request_side_only "AB" "ABC" (by decide)

/-- Row whose stored section number contains the `LIKE` wildcard `%`. -/
def exC5Row : ProvRow :=
  { jurisdiction := "US-CA", doc_jurisdiction := "US-CA", doc_title := "Demo Act",
    doc_identifier := some "DEMO", doc_short_name := some "Demo",
    section_number := some "1%", title := none, text := "child", order_index := 1 }

def exC5Input : GetProvisionInput :=
  { law_identifier := some "DEMO", jurisdiction := "US-CA", section_number := some "1A" }

/-- Claim C5, as stated, is false on the code: the stored section number
`"1%"` is not compared as a literal — its wildcard matches the request
`"1A"`, which is not prefix-related to it, and the resolver returns the
row. -/
theorem sectionEscape_claim_false :
    getProvision [exC5Row] exC5Input = [exC5Row]
    ∧ List.isPrefixOf "1%".data "1A".data = false
    ∧ List.isPrefixOf "1A".data "1%".data = false := by
  refine ⟨by decide, by decide, by decide⟩

/-! ## Citation validator (`src/tools/validate-citation.ts`)

Documents and provisions are separate tables joined by `document_id`.
`LIMIT 1` without `ORDER BY` is modelled as first match in stored order.
`validateNonEmptyString`/`validateJurisdiction` run before this logic and
raise on empty citations or unknown jurisdictions; the core below models
the post-validation behaviour. -/

/-- A `legal_documents` row. -/
structure DocRow where
  id : Nat
  jurisdiction : String
  title : String
  identifier : Option String
  short_name : Option String
  status : String
deriving DecidableEq, Repr

/-- A `legal_provisions` row (fields used by the validator). -/
structure CitProvRow where
  document_id : Nat
  section_number : Option String
  title : Option String
  order_index : Nat
deriving DecidableEq, Repr

/-- The `match_quality` values of the validator. -/
inductive MatchQuality where
  | section_exact
  | section_fuzzy
  | document_only
  | none
deriving DecidableEq, Repr

/-- Result shape of `validate_citation`. -/
structure ValidateResult where
  valid : Bool
  citation : String
  match_quality : MatchQuality
  matched_document : Option DocRow
  matched_provision : Option CitProvRow
deriving DecidableEq, Repr

/-- `LIKE` on a nullable column (`NULL` never matches). -/
def sqlLikeOptS (v : Option String) (pat : List Char) : Bool :=
  match v with
  | Option.none => false
  | some s => likeMatch s.data pat

/-- The pattern `%escaped%` built from the trimmed citation (line 41-42). -/
def citLikePattern (trimmed : String) : List Char :=
  '%' :: (escapeWild trimmed.data ++ ['%'])

/-- Document-level match: identifier, short name or title contains the
citation, optionally constrained to one jurisdiction. -/
def citDocPred (trimmed : String) (jur : Option String) (d : DocRow) : Bool :=
  (sqlLikeOptS d.identifier (citLikePattern trimmed) ||
   sqlLikeOptS d.short_name (citLikePattern trimmed) ||
   likeMatch d.title.data (citLikePattern trimmed)) &&
  (match jur with
   | Option.none => true
   | some j => d.jurisdiction == j)

/-- `(d.identifier = ? OR d.short_name = ?)` for the provision's own
document, with the `?? ''` null-coalescing of the TypeScript. -/
def provDocCond (docs : List DocRow) (docId docShort : String) (p : CitProvRow) : Bool :=
  match docs.find? (fun d => d.id == p.document_id) with
  | Option.none => false
  | some d =>
    (match d.identifier with
     | Option.none => false
     | some s => s == docId) ||
    (match d.short_name with
     | Option.none => false
     | some s => s == docShort)

/-- `(?:\([a-zA-Z0-9]+\))*`: greedily consume parenthesized alphanumeric
groups (fuel-indexed for kernel evaluation; the fuel is the text length,
always sufficient since every group consumes at least one character). -/
def parenGroupsF : Nat → List Char → List Char
  | 0, _ => []
  | Nat.succ n, cs =>
    match cs with
    | '(' :: rest =>
      let a := rest.takeWhile (fun c => isAsciiLetter c || isJsDigit c)
      if a.isEmpty then []
      else
        match rest.drop a.length with
        | ')' :: rest2 => '(' :: (a ++ (')' :: parenGroupsF n rest2))
        | _ => []
    | _ => []

def parenGroups (cs : List Char) : List Char := parenGroupsF cs.length cs

/-- Try `/§?\s*(\d[\w.-]*(?:\([a-zA-Z0-9]+\))*)/` at the head of the text,
returning the capture.  The regex is deterministic here: `\s*` and `\d`
are disjoint and nothing follows the greedy groups. -/
def matchSecRefAt (cs : List Char) : Option (List Char) :=
  let cs1 := match cs with
    | '§' :: rest => rest
    | _ => cs
  let cs2 := cs1.dropWhile isJsSpace
  match cs2 with
  | c :: rest =>
    if isJsDigit c then
      let w := rest.takeWhile isSecChar
      some (c :: (w ++ parenGroups (rest.drop w.length)))
    else Option.none
  | [] => Option.none

/-- Leftmost match of the section-reference regex (strategy 2 of the
validator, line 83). -/
def extractSecRef : List Char → Option (List Char)
  | [] => Option.none
  | c :: rest =>
    match matchSecRefAt (c :: rest) with
    | some cap => some cap
    | Option.none => extractSecRef rest

/-- Order for `ORDER BY p.order_index` in strategy 3. -/
def citRowLe (a b : CitProvRow) : Bool := a.order_index ≤ b.order_index

/-- Strategy 1: direct `LIKE` of the citation against section numbers of
the matched document. -/
def citProvDirect (docs : List DocRow) (provs : List CitProvRow)
    (docId docShort : String) (trimmed : String) : Option CitProvRow :=
  provs.find? (fun p =>
    provDocCond docs docId docShort p &&
    sqlLikeOptS p.section_number (citLikePattern trimmed))

/-- Strategy 2: extract a numeric section fragment and `LIKE`-match it. -/
def citProvFuzzy (docs : List DocRow) (provs : List CitProvRow)
    (docId docShort : String) (trimmed : String) : Option CitProvRow :=
  match extractSecRef trimmed.data with
  | Option.none => Option.none
  | some ref =>
    provs.find? (fun p =>
      provDocCond docs docId docShort p &&
      sqlLikeOptS p.section_number ('%' :: (escapeWild ref ++ ['%'])))

/-- Strategy 3: first provision of the matched document by ordinal. -/
def citProvFirst (docs : List DocRow) (provs : List CitProvRow)
    (docId docShort : String) : Option CitProvRow :=
  (sortByKey citRowLe (provs.filter (provDocCond docs docId docShort))).head?

/-- Core of `validateCitation` on the already-trimmed citation. -/
def validateCitationT (docs : List DocRow) (provs : List CitProvRow)
    (trimmed : String) (jur : Option String) : ValidateResult :=
  match docs.find? (citDocPred trimmed jur) with
  | Option.none =>
    ⟨false, trimmed, MatchQuality.none, Option.none, Option.none⟩
  | some d =>
    match citProvDirect docs provs (d.identifier.getD "") (d.short_name.getD "") trimmed with
    | some pr => ⟨true, trimmed, MatchQuality.section_exact, some d, some pr⟩
    | Option.none =>
      match citProvFuzzy docs provs (d.identifier.getD "") (d.short_name.getD "") trimmed with
      | some pr => ⟨true, trimmed, MatchQuality.section_fuzzy, some d, some pr⟩
      | Option.none =>
        ⟨true, trimmed, MatchQuality.document_only, some d,
          citProvFirst docs provs (d.identifier.getD "") (d.short_name.getD "")⟩

/-- `validateCitation` from `src/tools/validate-citation.ts`. -/
def validateCitation (docs : List DocRow) (provs : List CitProvRow)
    (citation : String) (jur : Option String) : ValidateResult :=
  validateCitationT docs provs (String.mk (jsTrim citation.data)) jur

/-- Claim C3.  Whenever the direct substring (`LIKE`) match of the citation
against section numbers of the matched document succeeds — in particular
when the fuzzy extracted-fragment match would also succeed — the validator
reports `section_exact` and never `section_fuzzy`: the fuzzy step runs
only when the direct step found no provision. -/
theorem validateCitation_tier_precedence (docs : List DocRow) (provs : List CitProvRow)
    (citation : String) (jur : Option String) (d : DocRow)
    (hdoc : docs.find? (citDocPred (String.mk (jsTrim citation.data)) jur) = some d)
    (hdirect : (citProvDirect docs provs (d.identifier.getD "") (d.short_name.getD "")
        (String.mk (jsTrim citation.data))).isSome = true)
    (hfuzzy : (citProvFuzzy docs provs (d.identifier.getD "") (d.short_name.getD "")
        (String.mk (jsTrim citation.data))).isSome = true) :
    (validateCitation docs provs citation jur).match_quality = MatchQuality.section_exact
    ∧ (validateCitation docs provs citation jur).match_quality ≠ MatchQuality.section_fuzzy := by
  have hq : (validateCitation docs provs citation jur).match_quality
      = MatchQuality.section_exact := by
    unfold validateCitation validateCitationT
    rw [hdoc]
    obtain ⟨pr, hpr⟩ := Option.isSome_iff_exists.mp hdirect
    simp only [hpr]
  exact ⟨hq, by rw [hq]; decide⟩

def exC3Doc : DocRow :=
  { id := 1, jurisdiction := "US-FED", title := "Computer Fraud and Abuse Act",
    identifier := some "18 USC 1030", short_name := some "CFAA", status := "in_force" }

def exC3Prov : CitProvRow :=
  { document_id := 1, section_number := some "§ 1030", title := some "Fraud",
    order_index := 1 }

/-- Witness for C3: a store where both the direct and the fuzzy section
match succeed, and the validator reports `section_exact`. -/
theorem validateCitation_tier_precedence_witness :
    (validateCitation [exC3Doc] [exC3Prov] "1030" Option.none).match_quality
      = MatchQuality.section_exact :=
  (validateCitation_tier_precedence [exC3Doc] [exC3Prov] "1030" Option.none exC3Doc
    (by decide) (by decide) (by decide)).1

/-! ## Jurisdiction validation and the cross-jurisdiction comparator

`validateJurisdiction` and `validateNonEmptyString` are embedded from
`src/utils/validate.ts`.  The `JURISDICTIONS` lookup table lives in
`src/types/index.ts`, which is not part of the snapshot. -/

/-- Modelled from the spec: the `JURISDICTIONS` table of
`src/types/index.ts` (missing from the snapshot) — "a code with a display
name; purely a lookup table", federal plus the states the README names. -/
def JURISDICTIONS : List (String × String) :=
  [("US-FED", "United States (Federal)"), ("US-CA", "California"),
   ("US-NY", "New York"), ("US-TX", "Texas"), ("US-FL", "Florida"),
   ("US-IL", "Illinois")]

/-- `jurisdiction in JURISDICTIONS`. -/
def isKnownJurisdiction (j : String) : Bool :=
  (JURISDICTIONS.find? (fun p => p.1 == j)).isSome

/-- `validateJurisdiction` from `src/utils/validate.ts`: falsy values are
missing (error only when required); otherwise the code must be in the
table.  Error messages are abbreviated. -/
def validateJurisdiction (j : Option String) (required : Bool) : Except String Unit :=
  if !(jsStr j) then
    if required then Except.error "jurisdiction is required" else Except.ok ()
  else if isKnownJurisdiction (j.getD "") then Except.ok ()
  else Except.error "Invalid jurisdiction"

/-- `validateNonEmptyString` from `src/utils/validate.ts` (string inputs):
errors on empty trim, returns the trimmed value. -/
def validateNonEmptyString (v : String) : Except String String :=
  if (jsTrim v.data).isEmpty then Except.error "must be a non-empty string"
  else Except.ok (String.mk (jsTrim v.data))

/-- A joined row of
`state_requirements ⋈ requirement_categories ⋈ legal_documents`
(fields relevant to the comparator's filtering and ordering). -/
structure ReqRow where
  jurisdiction : String
  category : String
  subcategory : String
  summary : String
deriving DecidableEq, Repr

/-- Input of the `compare_requirements` tool. -/
structure CompareInput where
  category : String
  subcategory : Option String := Option.none
  jurisdictions : List String
deriving DecidableEq, Repr

/-- The per-element validation loop (`for (const j of input.jurisdictions)
validateJurisdiction(j, true)`), failing at the first invalid code. -/
def validateJurisdictionList : List String → Except String Unit
  | [] => Except.ok ()
  | j :: rest =>
    match validateJurisdiction (some j) true with
    | Except.error e => Except.error e
    | Except.ok _ => validateJurisdictionList rest

/-- Lexicographic (codepoint) order on character lists: SQLite's default
`BINARY` collation (UTF-8 byte order equals codepoint order). -/
def listCharLt : List Char → List Char → Bool
  | [], [] => false
  | [], _ :: _ => true
  | _ :: _, [] => false
  | a :: as, b :: bs => a < b || (a == b && listCharLt as bs)

def strLt (a b : String) : Bool := listCharLt a.data b.data

/-- `ORDER BY sr.jurisdiction, rc.subcategory`. -/
def reqRowLe (a b : ReqRow) : Bool :=
  strLt a.jurisdiction b.jurisdiction ||
  (a.jurisdiction == b.jurisdiction &&
    (strLt a.subcategory b.subcategory || a.subcategory == b.subcategory))

/-- The `WHERE` conditions shared by both query shapes: category equality
and, when a subcategory argument is (truthily) present, subcategory
equality. -/
def compareBaseFilter (input : CompareInput) (r : ReqRow) : Bool :=
  r.category == input.category &&
  (if jsStr input.subcategory then r.subcategory == input.subcategory.getD "" else true)

/-- `compareRequirements` (its `results` list, or the validation error). -/
def compareRequirements (rows : List ReqRow) (input : CompareInput) :
    Except String (List ReqRow) :=
  match validateNonEmptyString input.category with
  | Except.error e => Except.error e
  | Except.ok _ =>
    if input.jurisdictions == ["all"] then
      Except.ok ((sortByKey reqRowLe (rows.filter (compareBaseFilter input))).take 200)
    else
      match validateJurisdictionList input.jurisdictions with
      | Except.error e => Except.error e
      | Except.ok _ =>
        if input.jurisdictions.isEmpty then Except.ok []
        else
          Except.ok ((sortByKey reqRowLe (rows.filter (fun r =>
            compareBaseFilter input r &&
            input.jurisdictions.contains r.jurisdiction))).take 200)

theorem validateJurisdiction_unknown_err (j : String)
    (h : isKnownJurisdiction j = false) :
    ∃ e, validateJurisdiction (some j) true = Except.error e := by
  unfold validateJurisdiction
  by_cases hj : jsStr (some j) = true
  · rw [hj]
    simp only [Option.getD_some, Bool.not_true, Bool.false_eq_true, if_false, h]
    exact ⟨_, rfl⟩
  · simp only [Bool.not_eq_true] at hj
    rw [hj]
    exact ⟨_, rfl⟩

theorem validateJurisdictionList_err (js : List String)
    (hbad : ∃ j ∈ js, isKnownJurisdiction j = false) :
    ∃ e, validateJurisdictionList js = Except.error e := by
  induction js with
  | nil => simp at hbad
  | cons j rest ih =>
    unfold validateJurisdictionList
    cases hv : validateJurisdiction (some j) true with
    | error e => exact ⟨e, rfl⟩
    | ok _ =>
      obtain ⟨j0, hmem, hj0⟩ := hbad
      rcases List.mem_cons.mp hmem with rfl | hmem'
      · obtain ⟨e, he⟩ := validateJurisdiction_unknown_err j0 hj0
        rw [he] at hv
        cases hv
      · exact ih ⟨j0, hmem', hj0⟩

/-- Claim C6.  With a valid category: a `jurisdictions` argument of exactly
`["all"]` applies no jurisdiction filter; any other list has each code
validated, and a list containing an unknown code fails with a validation
error rather than returning an empty result; an empty non-wildcard list
short-circuits to `[]` for every database state, without restricting or
querying by jurisdiction. -/
theorem compareRequirements_jurisdiction_contract
    (rows : List ReqRow) (cat : String) (subcat : Option String)
    (hcat : (jsTrim cat.data).isEmpty = false) :
    (compareRequirements rows ⟨cat, subcat, ["all"]⟩
      = Except.ok ((sortByKey reqRowLe
          (rows.filter (compareBaseFilter ⟨cat, subcat, ["all"]⟩))).take 200))
    ∧ (∀ js : List String, js ≠ ["all"] →
        (∃ j ∈ js, isKnownJurisdiction j = false) →
        ∃ e, compareRequirements rows ⟨cat, subcat, js⟩ = Except.error e)
    ∧ (compareRequirements rows ⟨cat, subcat, []⟩ = Except.ok []) := by
  have hv : validateNonEmptyString cat = Except.ok (String.mk (jsTrim cat.data)) := by
    unfold validateNonEmptyString
    rw [hcat]
    simp
  refine ⟨?_, ?_, ?_⟩
  · unfold compareRequirements
    rw [hv]
    rfl
  · intro js hne hbad
    obtain ⟨e, he⟩ := validateJurisdictionList_err js hbad
    unfold compareRequirements
    rw [hv]
    simp only []
    have hall : (js == ["all"]) = false := by
      cases hb : js == ["all"]
      · rfl
      · exact absurd (eq_of_beq hb) hne
    rw [hall]
    simp only [Bool.false_eq_true, if_false, he]
    exact ⟨e, rfl⟩
  · unfold compareRequirements
    rw [hv]
    rfl

def exC6Row1 : ReqRow :=
  { jurisdiction := "US-CA", category := "breach_notification",
    subcategory := "timeline", summary := "expedient notice" }

def exC6Row2 : ReqRow :=
  { jurisdiction := "US-NY", category := "breach_notification",
    subcategory := "timeline", summary := "without unreasonable delay" }

/-- Witness for C6 on a concrete store: the wildcard returns every matching
row, a list with the unknown code `US-XX` errors, and the empty list
short-circuits to no rows. -/
theorem compareRequirements_jurisdiction_contract_witness :
    compareRequirements [exC6Row1, exC6Row2]
        ⟨"breach_notification", some "timeline", ["all"]⟩
      = Except.ok [exC6Row1, exC6Row2]
    ∧ (∃ e, compareRequirements [exC6Row1, exC6Row2]
        ⟨"breach_notification", some "timeline", ["US-XX"]⟩ = Except.error e)
    ∧ compareRequirements [exC6Row1, exC6Row2]
        ⟨"breach_notification", some "timeline", []⟩ = Except.ok [] := by
  have h := compareRequirements_jurisdiction_contract [exC6Row1, exC6Row2]
    "breach_notification" (some "timeline") (by decide)
  refine ⟨?_, ?_, h.2.2⟩
  · rw [h.1]
    rfl
  · exact h.2.1 ["US-XX"] (by decide) ⟨"US-XX", by decide, by decide⟩

/-! ## Query variants and the search caller
(`src/tools/search-legislation.ts`)

The caller logic is embedded from the source.  The variant builder
(`src/utils/fts-query.ts`) is not part of the snapshot and is modelled
from the spec.  The full-text index is abstracted as a function from a
query string to a result list; jurisdiction filter and row limit are
folded into that function, which the claims do not constrain. -/

/-- Spec's token characters: "Unicode letter/number runs" (ASCII classes
here; the claims do not depend on the exact character classes). -/
def isTokenChar (c : Char) : Bool := isAsciiLetter c || isJsDigit c

/-- Maximal `isTokenChar` runs (fuel-indexed for kernel evaluation; each
step consumes at least one character, so `l.length` fuel suffices). -/
def alnumRunsF : Nat → List Char → List (List Char)
  | 0, _ => []
  | Nat.succ n, l =>
    match l with
    | [] => []
    | c :: cs =>
      if isTokenChar c then
        (c :: cs.takeWhile isTokenChar) :: alnumRunsF n (cs.dropWhile isTokenChar)
      else alnumRunsF n cs

/-- Modelled from the spec: tokenization of `build_variants` — "Tokenizes
on Unicode letter/number runs, discards empty tokens." -/
def ftsTokens (q : String) : List String :=
  (alnumRunsF q.data.length q.data).map (fun r => String.mk r)

/-- Modelled from the spec: "Escapes index-reserved syntax characters
present in raw user tokens" — modelled as quoting each token. -/
def escapeFtsToken (t : String) : String := "\"" ++ t ++ "\""

/-- Modelled from the spec: the conjunctive (AND) primary query. -/
def andQuery (q : String) : String :=
  String.intercalate " AND " ((ftsTokens q).map escapeFtsToken)

/-- Modelled from the spec: the disjunctive (OR) fallback query. -/
def orQuery (q : String) : String :=
  String.intercalate " OR " ((ftsTokens q).map escapeFtsToken)

structure FtsVariants where
  primary : Option String
  fallback : Option String
deriving DecidableEq, Repr

/-- Modelled from the spec: `build_variants(query) -> {primary, fallback}`;
"If the input contains zero usable tokens, both variants are
empty/undefined." -/
def buildFtsQueryVariants (q : String) : FtsVariants :=
  if (ftsTokens q).isEmpty then ⟨Option.none, Option.none⟩
  else ⟨some (andQuery q), some (orQuery q)⟩

/-- `searchLegislation` from `src/tools/search-legislation.ts`: validation,
then the primary query, then the fallback only on an empty primary result.
Returns the result rows together with the trace of issued index queries,
in order. -/
def searchLegislation {α : Type} (exec : String → List α) (query : String)
    (jur : Option String) : Except String (List α × List String) :=
  match validateNonEmptyString query with
  | Except.error e => Except.error e
  | Except.ok q =>
    match validateJurisdiction jur false with
    | Except.error e => Except.error e
    | Except.ok _ =>
      match (buildFtsQueryVariants q).primary with
      | Option.none => Except.ok ([], [])
      | some p =>
        if (exec p).isEmpty then
          match (buildFtsQueryVariants q).fallback with
          | some f => Except.ok (exec f, [p, f])
          | Option.none => Except.ok (exec p, [p])
        else Except.ok (exec p, [p])

theorem ftsTokens_ne_imp_trim_ne (query : String)
    (h : ftsTokens (String.mk (jsTrim query.data)) ≠ []) :
    (jsTrim query.data).isEmpty = false := by
  cases hq : jsTrim query.data with
  | nil => rw [hq] at h; exact absurd rfl h
  | cons c cs => rfl

/-- Claim C4.  For every index behaviour and every request with at least
one usable token: the primary (AND) query is issued first, and the
fallback (OR) query is issued if and only if the primary query returned
zero rows (the issued-query trace is `[primary, fallback]` exactly then,
and `[primary]` otherwise). -/
theorem searchLegislation_primary_first_fallback_iff {α : Type}
    (exec : String → List α) (query : String) (jur : Option String)
    (htok : ftsTokens (String.mk (jsTrim query.data)) ≠ [])
    (hjur : validateJurisdiction jur false = Except.ok ()) :
    searchLegislation exec query jur =
      Except.ok
        (if (exec (andQuery (String.mk (jsTrim query.data)))).isEmpty then
          (exec (orQuery (String.mk (jsTrim query.data))),
           [andQuery (String.mk (jsTrim query.data)),
            orQuery (String.mk (jsTrim query.data))])
         else
          (exec (andQuery (String.mk (jsTrim query.data))),
           [andQuery (String.mk (jsTrim query.data))])) := by
  have hne : (jsTrim query.data).isEmpty = false := ftsTokens_ne_imp_trim_ne query htok
  have hv : validateNonEmptyString query = Except.ok (String.mk (jsTrim query.data)) := by
    unfold validateNonEmptyString
    rw [hne]
    simp
  have hb : buildFtsQueryVariants (String.mk (jsTrim query.data))
      = ⟨some (andQuery (String.mk (jsTrim query.data))),
         some (orQuery (String.mk (jsTrim query.data)))⟩ := by
    unfold buildFtsQueryVariants
    rw [if_neg (by simpa using htok)]
  unfold searchLegislation
  simp only [hv, hjur, hb]
  by_cases hE : (exec (andQuery (String.mk (jsTrim query.data)))).isEmpty
  · simp [hE]
  · simp [hE]

/-- Witness for C4 against an index that returns nothing: both variants
are issued, in order. -/
theorem searchLegislation_primary_first_fallback_iff_witness :
    searchLegislation (fun _ => ([] : List Nat)) "data breach" Option.none =
      Except.ok ([], [andQuery "data breach", orQuery "data breach"]) := by
  have h := searchLegislation_primary_first_fallback_iff
    (fun _ => ([] : List Nat)) "data breach" Option.none (by decide) rfl
  rw [h]
  rfl

/-- Claim C8.  For every search input whose (trimmed, non-empty) query
yields zero usable tokens, the search returns an empty result set and
issues no query at all to the index — for every possible index
behaviour. -/
theorem searchLegislation_zero_tokens_short_circuit {α : Type}
    (exec : String → List α) (query : String) (jur : Option String)
    (htok : ftsTokens (String.mk (jsTrim query.data)) = [])
    (hne : (jsTrim query.data).isEmpty = false)
    (hjur : validateJurisdiction jur false = Except.ok ()) :
    searchLegislation exec query jur = Except.ok ([], []) := by
  have hv : validateNonEmptyString query = Except.ok (String.mk (jsTrim query.data)) := by
    unfold validateNonEmptyString
    rw [hne]
    simp
  have hb : buildFtsQueryVariants (String.mk (jsTrim query.data))
      = ⟨Option.none, Option.none⟩ := by
    unfold buildFtsQueryVariants
    rw [if_pos (by simpa using htok)]
  unfold searchLegislation
  simp only [hv, hjur, hb]

/-- Witness for C8: a symbol-only query against an index that would return
a row for any query still yields no results and no issued queries. -/
theorem searchLegislation_zero_tokens_short_circuit_witness :
    searchLegislation (fun _ => [(1 : Nat)]) "§§ --- !!!" Option.none
      = Except.ok ([], []) :=
  searchLegislation_zero_tokens_short_circuit (fun _ => [(1 : Nat)]) "§§ --- !!!"
    Option.none (by decide) (by decide) rfl

/-! ## Regex-fallback parser (`scripts/parsers/simple-html.ts`)

`parseSimpleHtml` factored through `htmlToText`: the cheerio HTML-to-text
stripping is an external collaborator, so the core is embedded as a
function of the stripped plain text.  The scanning regex
`/(?:§§?\s*(\d+[\w.-]*)|Sec(?:tion|\.)\s+(\d+[\w.-]*)|Art(?:icle|\.)\s+(\d+[\w.-]*))/gi`
is compiled to a deterministic scanner: within each alternative the
whitespace/digit/word classes are pairwise disjoint and nothing follows
the greedy capture, so the regex never backtracks.  Fuel-indexed
recursions use the text length as fuel, which every step strictly
consumes. -/

/-- Tail-recursive list length (the kernel evaluates it iteratively, which
matters for page-sized inputs; equal to `List.length`). -/
def listLenAux : Nat → List α → Nat
  | acc, [] => acc
  | acc, _ :: rest => listLenAux (acc + 1) rest

def listLen (l : List α) : Nat := listLenAux 0 l

theorem listLenAux_eq (l : List α) : ∀ acc, listLenAux acc l = acc + l.length := by
  induction l with
  | nil => intro acc; simp [listLenAux]
  | cons c rest ih => intro acc; simp [listLenAux, ih]; omega

theorem listLen_eq (l : List α) : listLen l = l.length := by
  simp [listLen, listLenAux_eq]

/-- One provision tuple `(sectionNumber, title, text)`; strings are
character lists. -/
structure ParsedProvision where
  sectionNumber : List Char
  title : List Char
  text : List Char
deriving DecidableEq, Repr

/-- Strip a case-insensitive literal from the head of the text. -/
def stripCiLit : List Char → List Char → Option (List Char)
  | [], cs => some cs
  | _ :: _, [] => Option.none
  | l :: ls, c :: cs =>
    if toLowerAscii l == toLowerAscii c then stripCiLit ls cs else Option.none

/-- `(\d+[\w.-]*)`: a digit-led run of `[\w.-]` characters; returns the
capture and the rest. -/
def takeNumTail (cs : List Char) : Option (List Char × List Char) :=
  match cs with
  | c :: rest =>
    if isJsDigit c then some (c :: rest.takeWhile isSecChar, rest.dropWhile isSecChar)
    else Option.none
  | [] => Option.none

/-- The `§§?\s*(\d+[\w.-]*)` alternative at the head of the text, returning
capture and match length. -/
def secSymBranch (cs : List Char) : Option (List Char × Nat) :=
  match cs with
  | '§' :: rest =>
    let pair := match rest with
      | '§' :: r2 => (2, r2)
      | _ => (1, rest)
    let ws := pair.2.takeWhile isJsSpace
    match takeNumTail (pair.2.dropWhile isJsSpace) with
    | some (cap, _) => some (cap, pair.1 + ws.length + cap.length)
    | Option.none => Option.none
  | _ => Option.none

/-- The `Sec(?:tion|\.)\s+(\d+[\w.-]*)` / `Art(?:icle|\.)\s+(\d+[\w.-]*)`
alternatives (case-insensitive), parameterized by stem and long suffix.
The two suffix alternatives start with distinct characters, so ordered
trying is exact. -/
def secWordBranch (stem suffix cs : List Char) : Option (List Char × Nat) :=
  match stripCiLit stem cs with
  | Option.none => Option.none
  | some r1 =>
    let sufRest : Option (Nat × List Char) :=
      match stripCiLit suffix r1 with
      | some r2 => some (suffix.length, r2)
      | Option.none =>
        match r1 with
        | '.' :: r2 => some (1, r2)
        | _ => Option.none
    match sufRest with
    | Option.none => Option.none
    | some (sufLen, r2) =>
      let ws := r2.takeWhile isJsSpace
      if ws.isEmpty then Option.none
      else
        match takeNumTail (r2.dropWhile isJsSpace) with
        | some (cap, _) => some (cap, stem.length + sufLen + ws.length + cap.length)
        | Option.none => Option.none

/-- One attempt of `SECTION_RE` at the head of the text (alternatives in
source order). -/
def matchSectionAt (cs : List Char) : Option (List Char × Nat) :=
  match secSymBranch cs with
  | some r => some r
  | Option.none =>
    match secWordBranch "sec".data "tion".data cs with
    | some r => some r
    | Option.none => secWordBranch "art".data "icle".data cs

/-- The `exec` loop collecting `(match.index, captured number)` pairs,
resuming after each match (`lastIndex`). -/
def scanSectionsF : Nat → List Char → Nat → List (Nat × List Char)
  | 0, _, _ => []
  | Nat.succ n, l, i =>
    match l with
    | [] => []
    | c :: rest =>
      match matchSectionAt (c :: rest) with
      | some (cap, len) => (i, cap) :: scanSectionsF n (rest.drop (len - 1)) (i + len)
      | Option.none => scanSectionsF n rest (i + 1)

/-- All section-marker positions in the text. -/
def sectionPositions (text : List Char) : List (Nat × List Char) :=
  scanSectionsF (listLen text) text 0

/-- `text.replace(SECTION_RE, '')`: drop every match, keep everything
else. -/
def removeMarkersF : Nat → List Char → List Char
  | 0, l => l
  | Nat.succ n, l =>
    match l with
    | [] => []
    | c :: rest =>
      match matchSectionAt (c :: rest) with
      | some (_, len) => removeMarkersF n (rest.drop (len - 1))
      | Option.none => c :: removeMarkersF n rest

def removeMarkers (l : List Char) : List Char := removeMarkersF (listLen l) l

/-- `.replace(/^[\s.:-]+/, '')`. -/
def stripLeadingPunct (l : List Char) : List Char :=
  l.dropWhile (fun c => isJsSpace c || c == '.' || c == ':' || c == '-')

/-- The slice-to-body pipeline of `parseSimpleHtml` (lines 101–108):
trim the slice, delete all section markers, strip leading
whitespace/punctuation, trim. -/
def cleanBody (slice : List Char) : List Char :=
  jsTrim (stripLeadingPunct (removeMarkers (jsTrim slice)))

/-- `textBody.split('\n')[0]?.trim() ?? ''`. -/
def firstLineOf (body : List Char) : List Char :=
  jsTrim (body.takeWhile (fun c => !(c == '\n')))

/-- `` `§ ${num}` ``. -/
def secNumString (num : List Char) : List Char := '§' :: ' ' :: num

/-- The per-position emission loop of `parseSimpleHtml` (lines 97–123):
slice from each marker to the next (the final slice capped at 10,000),
clean it, and emit when the body exceeds 10 characters. -/
def provisionsFromPositions (text : List Char) : List (Nat × List Char) → List ParsedProvision
  | [] => []
  | (idx, num) :: rest =>
    let endIdx := match rest with
      | (nidx, _) :: _ => nidx
      | [] => min (idx + 10000) (listLen text)
    let body := cleanBody ((text.drop idx).take (endIdx - idx))
    (if 10 < listLen body then
      [{ sectionNumber := secNumString num,
         title := if listLen (firstLineOf body) < 200 then firstLineOf body else [],
         text := body }]
     else []) ++ provisionsFromPositions text rest

/-- `parseSimpleHtml` on the stripped page text (lines 66–129): empty for
texts under 50 characters; a single `unknown` sentinel with the first
10,000 characters when no marker is found; per-marker slices otherwise. -/
def parseSimpleHtmlText (text : List Char) : List ParsedProvision :=
  if listLen text < 50 then []
  else
    match sectionPositions text with
    | [] => [{ sectionNumber := "unknown".data, title := [], text := text.take 10000 }]
    | ps => provisionsFromPositions text ps

/-- Claim C2 (amended).  When the stripped text has at least 50 characters
(not merely non-empty) and contains no section marker, the regex-fallback
strategy emits exactly one sentinel provision with section identifier
`unknown` whose text is the first 10,000 characters.  (As stated — at
least one provision whenever the text is non-empty — the claim fails; see
the counterexample.) -/
theorem parseSimpleHtml_sentinel (text : List Char) (h50 : 50 ≤ text.length)
    (hps : sectionPositions text = []) :
    parseSimpleHtmlText text
      = [{ sectionNumber := "unknown".data, title := [], text := text.take 10000 }] := by
  unfold parseSimpleHtmlText
  rw [if_neg (by rw [listLen_eq]; omega), hps]

/-- A non-empty stripped text shorter than 50 characters. -/
def exC2Short : List Char := "too short".data

/-- A 55-character text made of section markers whose slices all clean to
bodies of at most 10 characters. -/
def exC2Markers : List Char :=
  "§ 12345678 § 12345678 § 12345678 § 12345678 § 12345678".data

/-- Claim C2, as stated, is false on the code: a non-empty text under 50
characters yields no provision at all, and even a 55-character text can
yield no provision when every slice's cleaned body is 10 characters or
shorter. -/
theorem parseSimpleHtml_noLoss_claim_false :
    exC2Short ≠ [] ∧ parseSimpleHtmlText exC2Short = []
    ∧ 50 ≤ exC2Markers.length ∧ parseSimpleHtmlText exC2Markers = [] := by
  refine ⟨by decide, by decide, by decide, by decide⟩

/-- A marker-free stripped text of 63 characters. -/
def exC2Plain : List Char :=
  "this is a plain page of body copy with no statutory citations.".data

/-- Witness for the amended C2. -/
theorem parseSimpleHtml_sentinel_witness :
    parseSimpleHtmlText exC2Plain
      = [{ sectionNumber := "unknown".data, title := [], text := exC2Plain.take 10000 }] :=
  parseSimpleHtml_sentinel exC2Plain (by decide) (by decide)

/-! ### Scanner step lemmas -/

theorem scanSectionsF_nil (n i : Nat) : scanSectionsF n [] i = [] := by
  cases n <;> rfl

theorem scanSectionsF_step_some (m : Nat) (c : Char) (l : List Char) (i : Nat)
    (cap : List Char) (len : Nat) (h : matchSectionAt (c :: l) = some (cap, len)) :
    scanSectionsF (m + 1) (c :: l) i
      = (i, cap) :: scanSectionsF m (l.drop (len - 1)) (i + len) := by
  simp only [scanSectionsF, h]

theorem scanSectionsF_step_none (m : Nat) (c : Char) (l : List Char) (i : Nat)
    (h : matchSectionAt (c :: l) = Option.none) :
    scanSectionsF (m + 1) (c :: l) i = scanSectionsF m l (i + 1) := by
  simp only [scanSectionsF, h]

theorem removeMarkersF_step_some (m : Nat) (c : Char) (l : List Char)
    (cap : List Char) (len : Nat) (h : matchSectionAt (c :: l) = some (cap, len)) :
    removeMarkersF (m + 1) (c :: l) = removeMarkersF m (l.drop (len - 1)) := by
  simp only [removeMarkersF, h]

theorem removeMarkersF_step_none (m : Nat) (c : Char) (l : List Char)
    (h : matchSectionAt (c :: l) = Option.none) :
    removeMarkersF (m + 1) (c :: l) = c :: removeMarkersF m l := by
  simp only [removeMarkersF, h]

/-- No marker begins at an `a` followed by another `a`. -/
theorem matchSectionAt_aa (xs : List Char) :
    matchSectionAt ('a' :: 'a' :: xs) = Option.none := rfl

/-- No marker begins at an `a` followed by a space. -/
theorem matchSectionAt_aSpace (xs : List Char) :
    matchSectionAt ('a' :: ' ' :: xs) = Option.none := rfl

theorem matchSectionAt_a_nil : matchSectionAt ['a'] = Option.none := rfl

theorem matchSectionAt_space (xs : List Char) :
    matchSectionAt (' ' :: xs) = Option.none := rfl

theorem matchSectionAt_x (xs : List Char) :
    matchSectionAt ('x' :: xs) = Option.none := rfl

/-- The scanner passes over a run of `a`s (followed by a space) without
finding a marker, consuming one unit of fuel per character. -/
theorem scanSectionsF_a_run (k : Nat) : ∀ (n i : Nat) (rest : List Char),
    rest.head? = some ' ' →
    scanSectionsF (k + n) (List.replicate k 'a' ++ rest) i
      = scanSectionsF n rest (i + k) := by
  induction k with
  | zero => intro n i rest _; simp
  | succ k ih =>
    intro n i rest h
    have hrep : List.replicate (k + 1) 'a' ++ rest
        = 'a' :: (List.replicate k 'a' ++ rest) := by
      simp [List.replicate_succ]
    have hnone : matchSectionAt ('a' :: (List.replicate k 'a' ++ rest)) = Option.none := by
      cases k with
      | zero =>
        cases rest with
        | nil => simp at h
        | cons r rs =>
          have hr : r = ' ' := by simpa using h
          subst hr
          simpa using matchSectionAt_aSpace rs
      | succ k' =>
        simpa [List.replicate_succ] using matchSectionAt_aa (List.replicate k' 'a' ++ rest)
    have hfuel : k + 1 + n = (k + n) + 1 := by omega
    rw [hrep, hfuel, scanSectionsF_step_none _ _ _ _ hnone, ih n (i + 1) rest h]
    have : i + 1 + k = i + (k + 1) := by omega
    rw [this]

/-- Marker removal leaves a pure `a`-run unchanged (any fuel). -/
theorem removeMarkersF_replicate_a (n : Nat) : ∀ k,
    removeMarkersF n (List.replicate k 'a') = List.replicate k 'a' := by
  induction n with
  | zero => intro k; rfl
  | succ n ih =>
    intro k
    cases k with
    | zero => rfl
    | succ k' =>
      have hrep : List.replicate (k' + 1) 'a' = 'a' :: List.replicate k' 'a' := by
        simp [List.replicate_succ]
      have hnone : matchSectionAt ('a' :: List.replicate k' 'a') = Option.none := by
        cases k' with
        | zero => exact matchSectionAt_a_nil
        | succ k'' =>
          simpa [List.replicate_succ] using matchSectionAt_aa (List.replicate k'' 'a')
      rw [hrep, removeMarkersF_step_none _ _ _ hnone, ih k', ← hrep]

theorem dropWhile_replicate_a (p : Char → Bool) (k : Nat) (h : p 'a' = false) :
    (List.replicate k 'a').dropWhile p = List.replicate k 'a' := by
  cases k with
  | zero => rfl
  | succ k' => simp [List.replicate_succ, List.dropWhile_cons, h]

theorem takeWhile_replicate_a (p : Char → Bool) (h : p 'a' = true) : ∀ k,
    (List.replicate k 'a').takeWhile p = List.replicate k 'a' := by
  intro k
  induction k with
  | zero => rfl
  | succ k' ih => simp [List.replicate_succ, List.takeWhile_cons, h, ih]

theorem jsTrim_replicate_a (k : Nat) :
    jsTrim (List.replicate k 'a') = List.replicate k 'a' := by
  unfold jsTrim
  rw [dropWhile_replicate_a _ _ (by decide), List.reverse_replicate,
    dropWhile_replicate_a _ _ (by decide), List.reverse_replicate]

/-! ### A page with two markers more than 10,000 characters apart -/

/-- The tail after the `a`-run: a second marker and a tiny body. -/
def exC9tail : List Char := [' ', '§', ' ', '2', ' ', 'x']

/-- `"§ 1 " ++ "a"*k ++ " § 2 x"`. -/
def exC9k (k : Nat) : List Char :=
  '§' :: ' ' :: '1' :: ' ' :: (List.replicate k 'a' ++ exC9tail)

theorem exC9k_length (k : Nat) : (exC9k k).length = k + 10 := by
  simp [exC9k, exC9tail]

theorem matchSectionAt_exC9_first (xs : List Char) :
    matchSectionAt ('§' :: ' ' :: '1' :: ' ' :: xs) = some (['1'], 3) := rfl

theorem sectionPositions_exC9k (k : Nat) :
    sectionPositions (exC9k k) = [(0, ['1']), (k + 5, ['2'])] := by
  unfold sectionPositions
  rw [listLen_eq, exC9k_length]
  show scanSectionsF (k + 10)
    ('§' :: ' ' :: '1' :: ' ' :: (List.replicate k 'a' ++ exC9tail)) 0 = _
  have h10 : k + 10 = (k + 9) + 1 := by omega
  rw [h10, scanSectionsF_step_some _ _ _ _ _ _ (matchSectionAt_exC9_first _)]
  have hdrop : (' ' :: '1' :: ' ' :: (List.replicate k 'a' ++ exC9tail)).drop (3 - 1)
      = ' ' :: (List.replicate k 'a' ++ exC9tail) := rfl
  rw [hdrop]
  have h9 : k + 9 = (k + 8) + 1 := by omega
  rw [h9, scanSectionsF_step_none _ _ _ _ (matchSectionAt_space _)]
  rw [scanSectionsF_a_run k 8 (0 + 3 + 1) exC9tail (by rfl)]
  show (0, ['1']) :: scanSectionsF (7 + 1) exC9tail.tail (0 + 3 + 1 + k + 1) = _
  have hm2 : matchSectionAt exC9tail.tail = some (['2'], 3) := rfl
  rw [show exC9tail.tail = '§' :: [' ', '2', ' ', 'x'] from rfl] at hm2 ⊢
  rw [scanSectionsF_step_some _ _ _ _ _ _ hm2]
  have hdrop2 : ([' ', '2', ' ', 'x'] : List Char).drop (3 - 1) = [' ', 'x'] := rfl
  rw [hdrop2]
  rw [show (7 : Nat) = 6 + 1 from rfl,
    scanSectionsF_step_none _ _ _ _ (matchSectionAt_space _)]
  rw [show (6 : Nat) = 5 + 1 from rfl,
    scanSectionsF_step_none _ _ _ _ (matchSectionAt_x _)]
  rw [scanSectionsF_nil]
  have : 0 + 3 + 1 + k + 1 = k + 5 := by omega
  rw [this]

theorem exC9k_slice1 (k : Nat) :
    ((exC9k k).drop 0).take (k + 5 - 0)
      = '§' :: ' ' :: '1' :: ' ' :: (List.replicate k 'a' ++ [' ']) := by
  rw [List.drop_zero, Nat.sub_zero]
  show ('§' :: ' ' :: '1' :: ' ' :: (List.replicate k 'a' ++ exC9tail)).take (k + 5) = _
  rw [show k + 5 = (k + 4) + 1 from by omega, List.take_succ_cons]
  rw [show k + 4 = (k + 3) + 1 from by omega, List.take_succ_cons]
  rw [show k + 3 = (k + 2) + 1 from by omega, List.take_succ_cons]
  rw [show k + 2 = (k + 1) + 1 from by omega, List.take_succ_cons]
  have htake : (List.replicate k 'a' ++ exC9tail).take (k + 1)
      = List.replicate k 'a' ++ [' '] := by
    rw [List.take_append_eq_append_take, List.take_all_of_le (by simp), List.length_replicate,
      show k + 1 - k = 1 from by omega]
    rfl
  rw [htake]

theorem cleanBody_exC9_slice1 (k : Nat) :
    cleanBody ('§' :: ' ' :: '1' :: ' ' :: (List.replicate (k + 1) 'a' ++ [' ']))
      = List.replicate (k + 1) 'a' := by
  have h1 : jsTrim ('§' :: ' ' :: '1' :: ' ' :: (List.replicate (k + 1) 'a' ++ [' ']))
      = '§' :: ' ' :: '1' :: ' ' :: List.replicate (k + 1) 'a' := by
    unfold jsTrim
    have hlead : ('§' :: ' ' :: '1' :: ' ' :: (List.replicate (k + 1) 'a' ++ [' '])).dropWhile
        isJsSpace = '§' :: ' ' :: '1' :: ' ' :: (List.replicate (k + 1) 'a' ++ [' ']) := rfl
    rw [hlead]
    have e2 : ('§' :: ' ' :: '1' :: ' ' :: (List.replicate (k + 1) 'a' ++ [' '])).reverse
        = ' ' :: (List.replicate (k + 1) 'a').reverse ++ [' ', '1', ' ', '§'] := by
      show ((['§', ' ', '1', ' '] : List Char)
        ++ (List.replicate (k + 1) 'a' ++ [' '])).reverse = _
      rw [List.reverse_append, List.reverse_append]
      rfl
    rw [e2, List.reverse_replicate]
    have e3 : List.dropWhile isJsSpace
          ((' ' :: List.replicate (k + 1) 'a') ++ [' ', '1', ' ', '§'])
        = List.replicate (k + 1) 'a' ++ [' ', '1', ' ', '§'] := by
      rw [List.cons_append, List.dropWhile_cons, if_pos (by decide)]
      rw [List.replicate_succ, List.cons_append]
      rfl
    rw [e3]
    rw [List.reverse_append, List.reverse_replicate]
    rfl
  have h2 : removeMarkers ('§' :: ' ' :: '1' :: ' ' :: List.replicate (k + 1) 'a')
      = ' ' :: List.replicate (k + 1) 'a' := by
    unfold removeMarkers
    rw [listLen_eq]
    have hlen : ('§' :: ' ' :: '1' :: ' ' :: List.replicate (k + 1) 'a').length
        = ((k + 1) + 3) + 1 := by simp
    rw [hlen, removeMarkersF_step_some _ _ _ _ _ (matchSectionAt_exC9_first _)]
    have hdrop : (' ' :: '1' :: ' ' :: List.replicate (k + 1) 'a').drop (3 - 1)
        = ' ' :: List.replicate (k + 1) 'a' := rfl
    rw [hdrop, show (k + 1) + 3 = ((k + 1) + 2) + 1 from by omega,
      removeMarkersF_step_none _ _ _ (matchSectionAt_space _),
      removeMarkersF_replicate_a]
  have h3 : stripLeadingPunct (' ' :: List.replicate (k + 1) 'a')
      = List.replicate (k + 1) 'a' := by
    unfold stripLeadingPunct
    rw [List.dropWhile_cons, if_pos (by decide), List.replicate_succ]
    rfl
  unfold cleanBody
  rw [h1, h2, h3, jsTrim_replicate_a]

theorem exC9k_slice2 (k : Nat) :
    ((exC9k k).drop (k + 5)).take (min (k + 5 + 10000) (listLen (exC9k k)) - (k + 5))
      = ['§', ' ', '2', ' ', 'x'] := by
  rw [listLen_eq, exC9k_length]
  rw [show min (k + 5 + 10000) (k + 10) = k + 10 from by omega,
    show k + 10 - (k + 5) = 5 from by omega]
  have hdrop : (exC9k k).drop (k + 5) = ['§', ' ', '2', ' ', 'x'] := by
    show ((['§', ' ', '1', ' '] : List Char)
      ++ (List.replicate k 'a' ++ exC9tail)).drop (k + 5) = _
    rw [List.drop_append_eq_append_drop]
    have h1 : (['§', ' ', '1', ' '] : List Char).drop (k + 5) = [] := by
      apply List.drop_eq_nil_of_le
      simp
    rw [h1, show (['§', ' ', '1', ' '] : List Char).length = 4 from rfl,
      show k + 5 - 4 = k + 1 from by omega, List.drop_append_eq_append_drop]
    have h2 : (List.replicate k 'a').drop (k + 1) = [] := by
      apply List.drop_eq_nil_of_le
      simp
    rw [h2, List.length_replicate, show k + 1 - k = 1 from by omega]
    rfl
  rw [hdrop]
  rfl

theorem parseSimpleHtml_exC9k (k : Nat) (hk : 10000 < k) :
    (parseSimpleHtmlText (exC9k k)).map (fun pr => listLen pr.text) = [k] := by
  obtain ⟨k', rfl⟩ : ∃ k', k = k' + 1 := ⟨k - 1, by omega⟩
  unfold parseSimpleHtmlText
  rw [listLen_eq, exC9k_length, if_neg (by omega), sectionPositions_exC9k]
  show (provisionsFromPositions (exC9k (k' + 1)) [(0, ['1']), ((k' + 1) + 5, ['2'])]).map
    (fun pr => listLen pr.text) = _
  have hbody1 : cleanBody (((exC9k (k' + 1)).drop 0).take ((k' + 1) + 5 - 0))
      = List.replicate (k' + 1) 'a' := by
    rw [exC9k_slice1]
    exact cleanBody_exC9_slice1 k'
  have hbody2 : cleanBody (((exC9k (k' + 1)).drop ((k' + 1) + 5)).take
      (min ((k' + 1) + 5 + 10000) (listLen (exC9k (k' + 1))) - ((k' + 1) + 5))) = ['x'] := by
    rw [exC9k_slice2]
    decide
  simp only [provisionsFromPositions, hbody1, hbody2]
  rw [listLen_eq, List.length_replicate]
  rw [if_pos (by omega : 10 < k' + 1)]
  rw [show listLen (['x'] : List Char) = 1 from rfl]
  rw [if_neg (by omega : ¬ 10 < 1)]
  simp [listLen_eq]

/-- End offset of the `i`-th slice: the next marker's index, or for the
last marker `min(index + 10000, text length)`. -/
def sliceEndAt (text : List Char) (ps : List (Nat × List Char)) (i : Nat) : Nat :=
  if i + 1 < ps.length then (ps.getD (i + 1) (0, [])).1
  else min ((ps.getD i (0, [])).1 + 10000) (listLen text)

/-- The `i`-th inter-marker slice of the text. -/
def sliceAt (text : List Char) (ps : List (Nat × List Char)) (i : Nat) : List Char :=
  (text.drop (ps.getD i (0, [])).1).take (sliceEndAt text ps i - (ps.getD i (0, [])).1)

theorem sliceAt_cons (text : List Char) (hd : Nat × List Char)
    (rest : List (Nat × List Char)) (j : Nat) :
    sliceAt text (hd :: rest) (j + 1) = sliceAt text rest j := by
  unfold sliceAt sliceEndAt
  simp [List.getD_cons_succ, List.length_cons, Nat.add_lt_add_iff_right]

theorem removeMarkersF_length_le (n : Nat) : ∀ l : List Char,
    (removeMarkersF n l).length ≤ l.length := by
  induction n with
  | zero => intro l; exact Nat.le_refl _
  | succ n ih =>
    intro l
    cases l with
    | nil => exact Nat.le_refl _
    | cons c rest =>
      cases hm : matchSectionAt (c :: rest) with
      | none =>
        rw [removeMarkersF_step_none _ _ _ hm]
        simpa using ih rest
      | some pr =>
        obtain ⟨cap, len⟩ := pr
        rw [removeMarkersF_step_some _ _ _ _ _ hm]
        have h1 := ih (rest.drop (len - 1))
        have h2 : (rest.drop (len - 1)).length ≤ rest.length := by
          rw [List.length_drop]
          omega
        simp only [List.length_cons]
        omega

theorem dropWhileLenLe (p : Char → Bool) (l : List Char) :
    (l.dropWhile p).length ≤ l.length :=
  (List.dropWhile_sublist (l := l) p).length_le

theorem jsTrim_length_le (l : List Char) : (jsTrim l).length ≤ l.length := by
  unfold jsTrim
  have h1 := dropWhileLenLe isJsSpace l
  have h2 := dropWhileLenLe isJsSpace (l.dropWhile isJsSpace).reverse
  simp only [List.length_reverse] at *
  omega

theorem cleanBody_length_le (l : List Char) : (cleanBody l).length ≤ l.length := by
  unfold cleanBody stripLeadingPunct removeMarkers
  have h1 := jsTrim_length_le l
  have h2 := removeMarkersF_length_le (listLen (jsTrim l)) (jsTrim l)
  have h3 := dropWhileLenLe
    (fun c => isJsSpace c || c == '.' || c == ':' || c == '-')
    (removeMarkersF (listLen (jsTrim l)) (jsTrim l))
  have h4 := jsTrim_length_le ((removeMarkersF (listLen (jsTrim l)) (jsTrim l)).dropWhile
    (fun c => isJsSpace c || c == '.' || c == ':' || c == '-'))
  omega

/-- Structure of the emitted provisions: each comes from the slice between
its marker and the next (the final slice capped at 10,000 before
cleaning), and the provision emitted for the final marker can never exceed
10,000 characters. -/
theorem provisionsFromPositions_mem (text : List Char) :
    ∀ (ps : List (Nat × List Char)) (pr : ParsedProvision),
    pr ∈ provisionsFromPositions text ps →
    ∃ i, i < ps.length ∧ pr.text = cleanBody (sliceAt text ps i) ∧
      (i + 1 = ps.length → pr.text.length ≤ 10000) := by
  intro ps
  induction ps with
  | nil => intro pr hpr; simp [provisionsFromPositions] at hpr
  | cons hd rest ih =>
    obtain ⟨idx, num⟩ := hd
    intro pr hpr
    simp only [provisionsFromPositions] at hpr
    rcases List.mem_append.mp hpr with h1 | h2
    · refine ⟨0, by simp, ?_, ?_⟩
      · split at h1
        case isTrue hb =>
          have hpr' : pr = _ := List.mem_singleton.mp h1
          rw [hpr']
          cases rest with
          | nil => simp [sliceAt, sliceEndAt]
          | cons q qs => simp [sliceAt, sliceEndAt, List.getD_cons_succ]
        case isFalse => simp at h1
      · intro hlast
        have hrest : rest = [] := by
          have : rest.length = 0 := by simpa using hlast.symm
          exact List.length_eq_zero.mp this
        subst hrest
        split at h1
        case isTrue hb =>
          have hpr' : pr = _ := List.mem_singleton.mp h1
          rw [hpr']
          have hcb := cleanBody_length_le
            ((text.drop idx).take (min (idx + 10000) (listLen text) - idx))
          have htk : ((text.drop idx).take (min (idx + 10000) (listLen text) - idx)).length
              ≤ min (idx + 10000) (listLen text) - idx := by
            rw [List.length_take]
            exact Nat.min_le_left _ _
          have : min (idx + 10000) (listLen text) - idx ≤ 10000 := by
            have := Nat.min_le_left (idx + 10000) (listLen text)
            omega
          simp only []
          omega
        case isFalse => simp at h1
    · obtain ⟨j, hj, htext, hlast⟩ := ih pr h2
      refine ⟨j + 1, by simpa using Nat.succ_lt_succ hj, ?_, ?_⟩
      · rw [sliceAt_cons]
        exact htext
      · intro h
        exact hlast (by simpa using h)

/-- Claim C9 (amended).  For every marker-bearing page text, each emitted
provision's text is the cleaned slice (`cleanBody`: markers removed, edges
trimmed) between its marker occurrence and the next; only the slice after
the final marker is capped at 10,000 characters, so the final provision's
text never exceeds 10,000 characters while earlier provisions carry the
full inter-marker slice with no cap.  (As stated — every slice capped at
10,000 — the claim fails; see the counterexample.) -/
theorem parseSimpleHtml_slice_structure (text : List Char) (pr : ParsedProvision)
    (h50 : 50 ≤ text.length) (hps : sectionPositions text ≠ [])
    (hpr : pr ∈ parseSimpleHtmlText text) :
    ∃ i, i < (sectionPositions text).length ∧
      pr.text = cleanBody (sliceAt text (sectionPositions text) i) ∧
      (i + 1 = (sectionPositions text).length → pr.text.length ≤ 10000) := by
  have heq : parseSimpleHtmlText text
      = provisionsFromPositions text (sectionPositions text) := by
    unfold parseSimpleHtmlText
    rw [if_neg (by rw [listLen_eq]; omega)]
    rcases h : sectionPositions text with _ | ⟨a, as⟩
    · exact absurd h hps
    · rfl
  rw [heq] at hpr
  exact provisionsFromPositions_mem text _ pr hpr

/-- Claim C9, as stated, is false on the code: on the page
`"§ 1 " ++ "a"*10050 ++ " § 2 x"` the regex fallback emits a provision
whose text is 10,050 characters long — the cap applies only to the final
slice, not to slices between consecutive markers. -/
theorem parseSimpleHtml_capAll_claim_false :
    (parseSimpleHtmlText (exC9k 10050)).map (fun pr => listLen pr.text) = [10050]
    ∧ 10000 < 10050 :=
  ⟨parseSimpleHtml_exC9k 10050 (by norm_num), by norm_num⟩

/-- A small marker-bearing page for the witness. -/
def exC9W : List Char :=
  "§ 5 breach of security has the meaning set out in this part.".data

def exC9WBody : List Char :=
  "breach of security has the meaning set out in this part.".data

/-- Witness for the amended C9 at a concrete single-marker page. -/
theorem parseSimpleHtml_slice_structure_witness :
    ∃ i, i < (sectionPositions exC9W).length ∧
      ({ sectionNumber := "§ 5".data, title := exC9WBody,
         text := exC9WBody } : ParsedProvision).text
        = cleanBody (sliceAt exC9W (sectionPositions exC9W) i) ∧
      (i + 1 = (sectionPositions exC9W).length →
        ({ sectionNumber := "§ 5".data, title := exC9WBody,
           text := exC9WBody } : ParsedProvision).text.length ≤ 10000) :=
  parseSimpleHtml_slice_structure exC9W _ (by decide) (by decide) (by decide)

/-! ## Claim C7: extraction strategies are total and never throw -/

/-- The try/catch wrapper shared by all three extraction strategies
(`parseLegislature` lines 323–461, `parseLeginfo` lines 483–564,
`parseSimpleHtml` lines 66–129): each body may fail internally (cheerio
load, DOM traversal), modelled as `Except`; the catch-all clause maps any
internal failure to the empty provision list. -/
def guardStrategy (body : Except String (List ParsedProvision)) : List ParsedProvision :=
  match body with
  | Except.error _ => []
  | Except.ok l => l

/-- An extraction strategy with its internal failure behaviour abstracted:
a function from page HTML and source URL to a possibly failing body,
wrapped by the catch-all clause. -/
def runStrategy (body : String → String → Except String (List ParsedProvision))
    (html url : String) : List ParsedProvision :=
  guardStrategy (body html url)

/-- Claim C7.  Every extraction strategy is a total function of the page
HTML and source URL that never escalates an internal failure: whatever the
body does, the strategy returns a plain list — the body's provisions on
success and the empty list on any internal error — so an unparseable page
yields an empty result rather than an error aborting the batch. -/
theorem strategies_never_throw
    (body : String → String → Except String (List ParsedProvision))
    (html url : String) :
    (∀ e, body html url = Except.error e → runStrategy body html url = []) ∧
    (∀ l, body html url = Except.ok l → runStrategy body html url = l) := by
  constructor
  · intro e he
    simp [runStrategy, guardStrategy, he]
  · intro l hl
    simp [runStrategy, guardStrategy, hl]

/-- Witness for C7: a failing body is mapped to the empty list, and the
regex-fallback body on a too-short page is returned unchanged. -/
theorem strategies_never_throw_witness :
    runStrategy (fun _ _ => Except.error "cheerio failed") "<html>" "u" = [] ∧
    runStrategy (fun _ _ => Except.ok (parseSimpleHtmlText "short page".data))
      "<html>" "u" = parseSimpleHtmlText "short page".data :=
  ⟨(strategies_never_throw (fun _ _ => Except.error "cheerio failed") "<html>" "u").1
      "cheerio failed" rfl,
   (strategies_never_throw
      (fun _ _ => Except.ok (parseSimpleHtmlText "short page".data)) "<html>" "u").2
      (parseSimpleHtmlText "short page".data) rfl⟩

/-! ## Claim C10: emitted section-number format across the parsers

`parseLegislature` (part_004 lines 323–461) and `parseLeginfo` (lines
483–564) run over DOM-derived text fragments; the cheerio selection is
abstracted as the lists of fragment texts handed to each strategy, while
every string computation is embedded from the source. -/

/-- The optional range tail `(?:\s*[-–]\s*\d+[\w.-]*)?` of
`SECTION_PATTERNS[0]` and of `SECTION_BOUNDARY_RE`: on success the
returned characters extend the capture (whitespace and dash included).
Inside the group each greedy piece is forced (a shorter `\s*` puts a
whitespace character where a dash or digit is required), so one
deterministic pass is exact; on failure the optional group matches
empty and the enclosing match still succeeds. -/
def rangeTail (cs : List Char) : Option (List Char) :=
  let ws1 := cs.takeWhile isJsSpace
  match cs.dropWhile isJsSpace with
  | d :: r1 =>
    if d == '-' || d == '–' then
      let ws2 := r1.takeWhile isJsSpace
      match takeNumTail (r1.dropWhile isJsSpace) with
      | some (num2, _) => some (ws1 ++ d :: (ws2 ++ num2))
      | Option.none => Option.none
    else Option.none
  | [] => Option.none

/-- The `\s*(\d+[\w.-]*(?:…)?)` part of `SECTION_PATTERNS[0]` after the
section sign(s). -/
def legisP1Core (r : List Char) : Option (List Char) :=
  match takeNumTail (r.dropWhile isJsSpace) with
  | some (cap, after) =>
    match rangeTail after with
    | some ext => some (cap ++ ext)
    | Option.none => some cap
  | Option.none => Option.none

/-- `SECTION_PATTERNS[0]` (`§§?\s*(\d+[\w.-]*(?:\s*[-–]\s*\d+[\w.-]*)?)`)
tried at the head of the text, returning the capture.  When the second
`§` is consumed but the body fails, the regex retries with one `§`; that
attempt places the second `§` where `\s*\d` is required, and both
attempts are embedded. -/
def legisP1At (cs : List Char) : Option (List Char) :=
  match cs with
  | '§' :: rest =>
    (match rest with
     | '§' :: r2 =>
       (match legisP1Core r2 with
        | some cap => some cap
        | Option.none => legisP1Core rest)
     | _ => legisP1Core rest)
  | _ => Option.none

/-- `pattern.exec(text)` for pattern 1: the first position where it
matches (no word boundary). -/
def scanP1 : List Char → Option (List Char)
  | [] => Option.none
  | c :: rest =>
    match legisP1At (c :: rest) with
    | some cap => some cap
    | Option.none => scanP1 rest

/-- `exec` for the `\b`-anchored case-insensitive word patterns 2 and 3
(`\bSec(?:tion|\.)\s+(\d+[\w.-]*)`, `\bArt(?:icle|\.)\s+(\d+[\w.-]*)`):
the boundary holds iff the previous character (tracked in `prev`) is
absent or a non-word character; the first pattern character is a letter,
so no further boundary test is needed. -/
def scanWordPat (stem suffix : List Char) : Option Char → List Char → Option (List Char)
  | _, [] => Option.none
  | prev, c :: rest =>
    let bOk := match prev with
      | Option.none => true
      | some p => !(isWordChar p)
    match (if bOk then secWordBranch stem suffix (c :: rest) else Option.none) with
    | some (cap, _) => some cap
    | Option.none => scanWordPat stem suffix (some c) rest

/-- The repetition chains `(?:[.-]\d+)+` and `(?:\.\d+)*`: the maximal
list of repetitions, each its punctuation character followed by its
maximal non-empty digit run.  Fuel is the text length. -/
def dotChainF (dashOk : Char → Bool) : Nat → List Char → List (List Char)
  | 0, _ => []
  | Nat.succ n, cs =>
    match cs with
    | d :: rest =>
      if dashOk d then
        let ds := rest.takeWhile isJsDigit
        if ds.isEmpty then []
        else (d :: ds) :: dotChainF dashOk n (rest.dropWhile isJsDigit)
      else []
    | [] => []

/-- The `[a-zA-Z]?\b` continuation of pattern 4 at a chain end whose last
consumed character is a digit: the greedy optional letter is tried first
(the boundary then needs a non-word follower), else it matches empty and
the boundary needs a non-word follower directly. -/
def p4Tail (after : List Char) : Option (List Char) :=
  match after with
  | [] => some []
  | c :: rest2 =>
    if isAsciiLetter c then
      (match rest2 with
       | [] => some [c]
       | c2 :: _ => if isWordChar c2 then Option.none else some [c])
    else if isWordChar c then Option.none
    else some []

/-- Backtracking states of one repetition's digit run (reps supplied with
the run reversed): trailing digits are given back one at a time, keeping
at least one.  Each state is the kept digits paired with the following
text. -/
def shrinkRunRev : List Char → List Char → List (List Char × List Char)
  | [], _ => []
  | d :: revRest, after =>
    ((d :: revRest).reverse, after) :: shrinkRunRev revRest (d :: after)

/-- Backtracking states of the greedy `(?:[.-]\d+)+` chain in regex
preference order (reps supplied in reverse): trailing digits of the last
rep first, then the whole rep is dropped, keeping at least one rep. -/
def chainStatesRev : List (List Char) → List Char → List (List Char × List Char)
  | [], _ => []
  | r :: revRest, after =>
    (match r with
     | d :: ds =>
       (shrinkRunRev ds.reverse after).map
         (fun p => (((revRest.reverse).join) ++ (d :: p.1), p.2))
     | [] => []) ++ chainStatesRev revRest (r ++ after)

/-- The first chain state whose `[a-zA-Z]?\b` continuation succeeds. -/
def firstP4State : List (List Char × List Char) → Option (List Char)
  | [] => Option.none
  | (cap, aft) :: rest =>
    match p4Tail aft with
    | some ext => some (cap ++ ext)
    | Option.none => firstP4State rest

/-- `SECTION_PATTERNS[3]` (`\b(\d{2,}(?:[.-]\d+)+[a-zA-Z]?)\b`) tried at
one position (the leading boundary is checked by the caller; its
word-character half is the leading digit): at least two leading digits,
at least one rep, then the first viable backtracking state.  Giving back
leading digits of `\d{2,}` always places a digit where `[.-]` is
required, so only the maximal leading run is embedded. -/
def legisP4At (cs : List Char) : Option (List Char) :=
  let lead := cs.takeWhile isJsDigit
  if lead.length < 2 then Option.none
  else
    let rest := cs.dropWhile isJsDigit
    let reps := dotChainF (fun c => c == '.' || c == '-') (listLen rest) rest
    if reps.isEmpty then Option.none
    else
      match firstP4State (chainStatesRev reps.reverse (rest.drop (reps.join).length)) with
      | some capTail => some (lead ++ capTail)
      | Option.none => Option.none

/-- `exec` for pattern 4 with its leading `\b` (previous character
tracked as in `scanWordPat`). -/
def scanP4 : Option Char → List Char → Option (List Char)
  | _, [] => Option.none
  | prev, c :: rest =>
    let bOk := match prev with
      | Option.none => true
      | some p => !(isWordChar p)
    match (if bOk then legisP4At (c :: rest) else Option.none) with
    | some cap => some cap
    | Option.none => scanP4 (some c) rest

/-- `findSectionNumber` (part_004 lines 313–321): the four
`SECTION_PATTERNS` in order; on a match, group 1 — always present and
non-empty in these patterns, so the `?? match[0] ?? null` fallbacks never
fire — is returned. -/
def findSectionNumber (text : List Char) : Option (List Char) :=
  match scanP1 text with
  | some cap => some cap
  | Option.none =>
    match scanWordPat "sec".data "tion".data Option.none text with
    | some cap => some cap
    | Option.none =>
      match scanWordPat "art".data "icle".data Option.none text with
      | some cap => some cap
      | Option.none => scanP4 Option.none text

/-- One attempt of `SECTION_BOUNDARY_RE`'s first branch
(`§§?\s*\d+[\w.-]*(?:\s*[-–]\s*\d+[\w.-]*)?`) at the head of the text,
returning the match length.  As in `legisP1At`, retrying with one `§`
after a two-`§` body failure places `§` where a digit is required, so a
single attempt per head shape is exact. -/
def boundarySymLen (cs : List Char) : Option Nat :=
  match cs with
  | '§' :: rest =>
    let pair : Nat × List Char := match rest with
      | '§' :: r2 => (2, r2)
      | _ => (1, rest)
    let ws := pair.2.takeWhile isJsSpace
    (match takeNumTail (pair.2.dropWhile isJsSpace) with
     | some (cap, after) =>
       (match rangeTail after with
        | some ext => some (pair.1 + ws.length + cap.length + ext.length)
        | Option.none => some (pair.1 + ws.length + cap.length))
     | Option.none => Option.none)
  | _ => Option.none

/-- One attempt of `SECTION_BOUNDARY_RE` (three branches in source order,
case-insensitive, no word boundary) at the head of the text, returning
the match length. -/
def boundaryLenAt (cs : List Char) : Option Nat :=
  match boundarySymLen cs with
  | some n => some n
  | Option.none =>
    match secWordBranch "sec".data "tion".data cs with
    | some (_, len) => some len
    | Option.none =>
      match secWordBranch "art".data "icle".data cs with
      | some (_, len) => some len
      | Option.none => Option.none

/-- `text.replace(SECTION_BOUNDARY_RE, '')` (global): every match is
deleted; scanning resumes after each match. -/
def removeBoundaryF : Nat → List Char → List Char
  | 0, l => l
  | Nat.succ n, l =>
    match l with
    | [] => []
    | c :: rest =>
      match boundaryLenAt (c :: rest) with
      | some len => removeBoundaryF n (rest.drop (len - 1))
      | Option.none => c :: removeBoundaryF n rest

def removeBoundary (l : List Char) : List Char := removeBoundaryF (listLen l) l

/-- `extractTitle` (part_004 lines 300–308): the trimmed first line when
it is non-empty, under 200 characters and does not open with `(`. -/
def legisExtractTitle (text : List Char) : List Char :=
  let firstLine := jsTrim (text.takeWhile (fun c => !(c == '\n')))
  match firstLine with
  | '(' :: _ => []
  | [] => []
  | _ =>
    if listLen firstLine < 200 then firstLine else []

/-- `String.prototype.split('\n')` (fuel is the text length). -/
def splitNlF : Nat → List Char → List (List Char)
  | 0, l => [l]
  | Nat.succ n, l =>
    let line := l.takeWhile (fun c => !(c == '\n'))
    match l.dropWhile (fun c => !(c == '\n')) with
    | [] => [line]
    | _ :: rest => line :: splitNlF n rest

def splitNl (l : List Char) : List (List Char) := splitNlF (listLen l) l

/-- `Array.prototype.join('\n')`. -/
def joinNl : List (List Char) → List Char
  | [] => []
  | [t] => t
  | t :: rest => t ++ '\n' :: joinNl rest

/-- `String.prototype.indexOf` position search. -/
def indexOfSubAux (needle : List Char) : Nat → List Char → Option Nat
  | i, [] => if needle.isEmpty then some i else Option.none
  | i, c :: rest =>
    if needle.isPrefixOf (c :: rest) then some i
    else indexOfSubAux needle (i + 1) rest

/-- `hay.indexOf(needle)`: first occurrence index, `-1` when absent. -/
def jsIndexOf (hay needle : List Char) : Int :=
  match indexOfSubAux needle 0 hay with
  | some i => (i : Int)
  | Option.none => -1

/-- Strategy 1 of `parseLegislature` (lines 354–379): the per-element
loop body over the structured-selector texts — skip fragments under 20
characters or without a section number; otherwise strip the boundary
markers, extract a title and emit. -/
def legisStructured : List (List Char) → List ParsedProvision
  | [] => []
  | t :: rest =>
    let sectionText := jsTrim t
    (if listLen sectionText < 20 then []
     else
       match findSectionNumber sectionText with
       | Option.none => []
       | some sectionNum =>
         let cleanedText := jsTrim (removeBoundary sectionText)
         [{ sectionNumber := secNumString sectionNum,
            title := legisExtractTitle cleanedText,
            text := cleanedText }]) ++ legisStructured rest

/-- Strategy 2 of `parseLegislature` (lines 386–422): each heading text
with the sibling texts collected for it — emit when the heading carries a
section number and the joined sibling text exceeds 10 characters. -/
def legisHeading : List (List Char × List (List Char)) → List ParsedProvision
  | [] => []
  | (h, parts) :: rest =>
    let headingText := jsTrim h
    (match findSectionNumber headingText with
     | Option.none => []
     | some sectionNum =>
       let fullText := jsTrim (joinNl parts)
       if 10 < listLen fullText then
         [{ sectionNumber := secNumString sectionNum,
            title := jsTrim (stripLeadingPunct (removeBoundary headingText)),
            text := fullText }]
       else []) ++ legisHeading rest

/-- One line of strategy 3 of `parseLegislature` (lines 433–451): a line
opens a new section when it carries a section number occurring before
index 50; otherwise it is appended to the current provision's text. -/
def legisLinesStep (acc : List ParsedProvision) (cur : Option ParsedProvision)
    (line : List Char) : List ParsedProvision × Option ParsedProvision :=
  let isNew : Option (List Char) :=
    match findSectionNumber line with
    | some n => if jsIndexOf line n < 50 then some n else Option.none
    | Option.none => Option.none
  match isNew with
  | some sectionNum =>
    let pushed := match cur with
      | some p => if 10 < listLen p.text then acc ++ [p] else acc
      | Option.none => acc
    let afterNum := jsTrim (stripLeadingPunct (removeBoundary line))
    (pushed,
     some { sectionNumber := secNumString sectionNum,
            title := legisExtractTitle afterNum,
            text := afterNum })
  | Option.none =>
    match cur with
    | some p => (acc, some { p with text := p.text ++ '\n' :: line })
    | Option.none => (acc, Option.none)

/-- The line fold shared by legislature strategy 3 (lines 431–455) and
leginfo strategy 2 (lines 536–558), with the final
`text.length > 10` push. -/
def linesGo
    (step : List ParsedProvision → Option ParsedProvision → List Char →
      List ParsedProvision × Option ParsedProvision) :
    List ParsedProvision → Option ParsedProvision → List (List Char) →
      List ParsedProvision
  | acc, cur, [] =>
    (match cur with
     | some p => if 10 < listLen p.text then acc ++ [p] else acc
     | Option.none => acc)
  | acc, cur, line :: rest =>
    let st := step acc cur line
    linesGo step st.1 st.2 rest

/-- Strategy 3 of `parseLegislature` on the container's full text: trim,
split into lines, trim each and keep the non-empty ones, then fold. -/
def legisLines (fullText : List Char) : List ParsedProvision :=
  linesGo legisLinesStep [] Option.none
    (((splitNl (jsTrim fullText)).map jsTrim).filter (fun l => !l.isEmpty))

/-- The first structured selector whose element texts produce at least
one provision (the `if (provisions.length > 0) return provisions` early
exit of strategy 1). -/
def firstStructured : List (List (List Char)) → List ParsedProvision
  | [] => []
  | ts :: rest =>
    let s := legisStructured ts
    if s.isEmpty then firstStructured rest else s

/-- `parseLegislature` (lines 323–461) with the DOM abstracted: no
content container yields `[]`; otherwise strategy 1 over each structured
selector's texts, then strategy 2 over the headings, then the line fold
over the container's full text — each strategy's result returned when
non-empty. -/
def parseLegislatureBody (contentFound : Bool)
    (structuredSel : List (List (List Char)))
    (headings : List (List Char × List (List Char)))
    (fullText : List Char) : List ParsedProvision :=
  if !contentFound then []
  else
    let s1 := firstStructured structuredSel
    if !s1.isEmpty then s1
    else
      let s2 := legisHeading headings
      if !s2.isEmpty then s2 else legisLines fullText

/-- Backtracking resolution of `CA_SECTION_RE`
(`^(\d+(?:\.\d+)*)\.\s*`, reps supplied in reverse): the literal `.`
must follow the kept chain.  Giving back digits inside a rep places a
digit where `.` is required and never succeeds, so only whole-rep drops
are viable (each dropped rep itself starts with the required `.`); zero
kept reps is allowed by the `*`.  Returns the kept chain tail and the
text after the literal dot. -/
def caResolveRev : List (List Char) → List Char → Option (List Char × List Char)
  | [], after =>
    (match after with
     | '.' :: rest => some ([], rest)
     | _ => Option.none)
  | r :: revRest, after =>
    (match after with
     | '.' :: rest => some (((r :: revRest).reverse).join, rest)
     | _ => caResolveRev revRest (r ++ after))

/-- `CA_SECTION_RE.exec(line)` (anchored): on success, group 1 and the
text after the whole match (`match[0]` ends with the literal dot and the
greedy `\s*`).  Giving back leading `\d+` digits places a digit where
`\.` or `.`-rep punctuation is required, so only the maximal leading run
is embedded. -/
def caSectionAt (line : List Char) : Option (List Char × List Char) :=
  let lead := line.takeWhile isJsDigit
  if lead.isEmpty then Option.none
  else
    let rest := line.dropWhile isJsDigit
    let reps := dotChainF (fun c => c == '.') (listLen rest) rest
    match caResolveRev reps.reverse (rest.drop (reps.join).length) with
    | some (tail, afterDot) =>
      some (lead ++ tail, afterDot.dropWhile isJsSpace)
    | Option.none => Option.none

/-- JavaScript `.` without the `s` flag: any character except a line
terminator. -/
def jsDot (c : Char) : Bool :=
  !(c == '\n' || c == '\r' || c.toNat == 0x2028 || c.toNat == 0x2029)

/-- Give-back search for `\s+(.+)` when the whitespace run reaches the
end of the line: trailing whitespace characters (supplied reversed,
keeping at least one) are surrendered to the greedy `.+` until one is
not a line terminator. -/
def caGiveBackRev : List Char → List Char → Option (List Char)
  | [], _ => Option.none
  | w :: revRest, afterW =>
    if jsDot w then some (w :: afterW.takeWhile jsDot)
    else caGiveBackRev revRest (w :: afterW)

/-- The `\s+(.+)` continuation of `CA_HEADING_RE` after the literal dot,
returning group 2.  When text follows the maximal whitespace run its
first character is necessarily not a line terminator (terminators are
whitespace), so the greedy split is exact; otherwise trailing whitespace
is given back to `.+`. -/
def caHeadTitleSrc (rest : List Char) : Option (List Char) :=
  let ws := rest.takeWhile isJsSpace
  let body := rest.dropWhile isJsSpace
  if ws.isEmpty then Option.none
  else
    match body with
    | _ :: _ => some (body.takeWhile jsDot)
    | [] => caGiveBackRev (ws.drop 1).reverse []

/-- Backtracking resolution of `CA_HEADING_RE`
(`^(\d+(?:\.\d+)*)\.\s+(.+)`): as in `caResolveRev` only whole-rep drops
can place the literal dot, but the continuation also needs `\s+(.+)`, so
each boundary is tried in turn.  Returns group 2. -/
def caHeadResolveRev : List (List Char) → List Char → Option (List Char)
  | [], after =>
    (match after with
     | '.' :: rest => caHeadTitleSrc rest
     | _ => Option.none)
  | r :: revRest, after =>
    (match after with
     | '.' :: rest =>
       (match caHeadTitleSrc rest with
        | some g2 => some g2
        | Option.none => caHeadResolveRev revRest (r ++ after))
     | _ => caHeadResolveRev revRest (r ++ after))

/-- `headingMatch?.[2]?.split('\n')[0]?.trim() ?? ''` over
`CA_HEADING_RE.exec(line)` (part_004 lines 521–522 and 544–545). -/
def caHeadingTitle (line : List Char) : List Char :=
  let lead := line.takeWhile isJsDigit
  if lead.isEmpty then []
  else
    let rest := line.dropWhile isJsDigit
    let reps := dotChainF (fun c => c == '.') (listLen rest) rest
    match caHeadResolveRev reps.reverse (rest.drop (reps.join).length) with
    | some g2 => jsTrim (g2.takeWhile (fun c => !(c == '\n')))
    | Option.none => []

/-- Strategy 1 of `parseLeginfo` (lines 514–530): the per-element loop
over the law-section container texts; `match[1] ?? ''` is group 1
(always present), and the emission guard keeps the source's
`sectionNumber &&` truthiness test. -/
def leginfoSections : List (List Char) → List ParsedProvision
  | [] => []
  | t :: rest =>
    let sectionText := jsTrim t
    (match caSectionAt sectionText with
     | some (sectionNumber, remainder) =>
       let text := jsTrim remainder
       if !sectionNumber.isEmpty && 10 < listLen text then
         [{ sectionNumber := secNumString sectionNumber,
            title := caHeadingTitle sectionText,
            text := text }]
       else []
     | Option.none => []) ++ leginfoSections rest

/-- One line of strategy 2 of `parseLeginfo` (lines 537–555). -/
def leginfoLinesStep (acc : List ParsedProvision) (cur : Option ParsedProvision)
    (line : List Char) : List ParsedProvision × Option ParsedProvision :=
  match caSectionAt line with
  | some (sectionNumber, remainder) =>
    let pushed := match cur with
      | some p => if 10 < listLen p.text then acc ++ [p] else acc
      | Option.none => acc
    (pushed,
     some { sectionNumber := secNumString sectionNumber,
            title := caHeadingTitle line,
            text := jsTrim remainder })
  | Option.none =>
    match cur with
    | some p => (acc, some { p with text := p.text ++ '\n' :: line })
    | Option.none => (acc, Option.none)

/-- Strategy 2 of `parseLeginfo` on the container's full text
(`filter(Boolean)` keeps the non-empty trimmed lines). -/
def leginfoLines (fullText : List Char) : List ParsedProvision :=
  linesGo leginfoLinesStep [] Option.none
    (((splitNl (jsTrim fullText)).map jsTrim).filter (fun l => !l.isEmpty))

/-- `parseLeginfo` (lines 483–564) with the DOM abstracted: no content
container yields `[]`; strategy 1 over the law-section element texts
(`$sections.length > 0` with no emission falls through, exactly when the
strategy's list is empty), else the line fold over the full text. -/
def parseLeginfoBody (contentFound : Bool) (sectionTexts : List (List Char))
    (fullText : List Char) : List ParsedProvision :=
  if !contentFound then []
  else
    let s1 := leginfoSections sectionTexts
    if !s1.isEmpty then s1 else leginfoLines fullText

/-- A provision whose section number is the section sign, one space, and
a string captured by the legislature pattern library. -/
def fromLegisCapture (pr : ParsedProvision) : Prop :=
  ∃ n s, findSectionNumber s = some n ∧ pr.sectionNumber = secNumString n

/-- A provision whose section number is the section sign, one space, and
a `CA_SECTION_RE` group-1 capture. -/
def fromCaCapture (pr : ParsedProvision) : Prop :=
  ∃ n s r, caSectionAt s = some (n, r) ∧ pr.sectionNumber = secNumString n

/-- A simple-html provision: either the marker-free sentinel with the
literal `unknown`, or the section sign, one space, and the `SECTION_RE`
capture of one of the page's marker positions. -/
def fromSimpleCapture (text : List Char) (pr : ParsedProvision) : Prop :=
  pr.sectionNumber = "unknown".data ∨
  ∃ p, p ∈ sectionPositions text ∧ pr.sectionNumber = secNumString p.2

theorem legisStructured_capture :
    ∀ ts pr, pr ∈ legisStructured ts → fromLegisCapture pr := by
  intro ts
  induction ts with
  | nil => intro pr hpr; simp [legisStructured] at hpr
  | cons t rest ih =>
    intro pr hpr
    simp only [legisStructured] at hpr
    rcases List.mem_append.mp hpr with h | h
    · split at h
      · simp at h
      · rcases hfind : findSectionNumber (jsTrim t) with _ | n
        · rw [hfind] at h; simp at h
        · rw [hfind] at h
          simp only [List.mem_singleton] at h
          exact ⟨n, jsTrim t, hfind, by rw [h]⟩
    · exact ih pr h

theorem firstStructured_capture :
    ∀ sel pr, pr ∈ firstStructured sel → fromLegisCapture pr := by
  intro sel
  induction sel with
  | nil => intro pr hpr; simp [firstStructured] at hpr
  | cons ts rest ih =>
    intro pr hpr
    simp only [firstStructured] at hpr
    split at hpr
    · exact ih pr hpr
    · exact legisStructured_capture ts pr hpr

theorem legisHeading_capture :
    ∀ hs pr, pr ∈ legisHeading hs → fromLegisCapture pr := by
  intro hs
  induction hs with
  | nil => intro pr hpr; simp [legisHeading] at hpr
  | cons hp rest ih =>
    intro pr hpr
    simp only [legisHeading] at hpr
    rcases hfind : findSectionNumber (jsTrim hp.1) with _ | n
    · simp only [hfind, List.nil_append] at hpr
      exact ih pr hpr
    · simp only [hfind] at hpr
      rcases List.mem_append.mp hpr with h | h
      · by_cases hlen : 10 < listLen (jsTrim (joinNl hp.2))
        · rw [if_pos hlen] at h
          simp only [List.mem_singleton] at h
          exact ⟨n, jsTrim hp.1, hfind, by rw [h]⟩
        · rw [if_neg hlen] at h
          simp only [List.not_mem_nil] at h
      · exact ih pr h

theorem linesGo_inv {P : ParsedProvision → Prop}
    (step : List ParsedProvision → Option ParsedProvision → List Char →
      List ParsedProvision × Option ParsedProvision)
    (hstep : ∀ acc cur line, (∀ q ∈ acc, P q) → (∀ q, cur = some q → P q) →
      (∀ q ∈ (step acc cur line).1, P q) ∧
      (∀ q, (step acc cur line).2 = some q → P q)) :
    ∀ lines acc cur, (∀ q ∈ acc, P q) → (∀ q, cur = some q → P q) →
      ∀ pr ∈ linesGo step acc cur lines, P pr := by
  intro lines
  induction lines with
  | nil =>
    intro acc cur hacc hcur pr hpr
    simp only [linesGo] at hpr
    rcases cur with _ | p
    · exact hacc pr hpr
    · simp only [] at hpr
      split at hpr
      · rcases List.mem_append.mp hpr with h | h
        · exact hacc pr h
        · simp only [List.mem_singleton] at h
          rw [h]; exact hcur p rfl
      · exact hacc pr hpr
  | cons line rest ih =>
    intro acc cur hacc hcur pr hpr
    simp only [linesGo] at hpr
    obtain ⟨h1, h2⟩ := hstep acc cur line hacc hcur
    exact ih _ _ h1 h2 pr hpr

theorem legisLinesStep_inv (acc : List ParsedProvision)
    (cur : Option ParsedProvision) (line : List Char)
    (hacc : ∀ q ∈ acc, fromLegisCapture q)
    (hcur : ∀ q, cur = some q → fromLegisCapture q) :
    (∀ q ∈ (legisLinesStep acc cur line).1, fromLegisCapture q) ∧
    (∀ q, (legisLinesStep acc cur line).2 = some q → fromLegisCapture q) := by
  have hpush : ∀ q ∈ (match cur with
      | some p => if 10 < listLen p.text then acc ++ [p] else acc
      | Option.none => acc), fromLegisCapture q := by
    rcases cur with _ | p
    · exact hacc
    · intro q hq
      simp only [] at hq
      split at hq
      · rcases List.mem_append.mp hq with h | h
        · exact hacc q h
        · simp only [List.mem_singleton] at h
          rw [h]; exact hcur p rfl
      · exact hacc q hq
  have hkeep : (∀ q ∈ (match cur with
        | some p => (acc, some { p with text := p.text ++ '\n' :: line })
        | Option.none =>
          (acc, (Option.none : Option ParsedProvision))).1, fromLegisCapture q) ∧
      (∀ q, (match cur with
        | some p => (acc, some { p with text := p.text ++ '\n' :: line })
        | Option.none =>
          (acc, (Option.none : Option ParsedProvision))).2 = some q →
          fromLegisCapture q) := by
    rcases cur with _ | p
    · exact ⟨hacc, fun q hq => nomatch hq⟩
    · refine ⟨hacc, ?_⟩
      intro q hq
      simp only [Option.some.injEq] at hq
      obtain ⟨n, s, h1, h2⟩ := hcur p rfl
      exact ⟨n, s, h1, by rw [← hq]; exact h2⟩
  simp only [legisLinesStep]
  rcases hfind : findSectionNumber line with _ | n
  · simp only []
    exact hkeep
  · simp only []
    by_cases h50 : jsIndexOf line n < 50
    · simp only [if_pos h50]
      refine ⟨hpush, ?_⟩
      intro q hq
      simp only [Option.some.injEq] at hq
      exact ⟨n, line, hfind, by rw [← hq]⟩
    · simp only [if_neg h50]
      exact hkeep

theorem legisLines_capture :
    ∀ ft pr, pr ∈ legisLines ft → fromLegisCapture pr := by
  intro ft pr hpr
  exact linesGo_inv legisLinesStep legisLinesStep_inv _ [] Option.none
    (by intro q hq; simp at hq) (by intro q hq; nomatch hq) pr hpr

theorem parseLegislatureBody_capture :
    ∀ cf sel hs ft pr, pr ∈ parseLegislatureBody cf sel hs ft →
      fromLegisCapture pr := by
  intro cf sel hs ft pr hpr
  simp only [parseLegislatureBody] at hpr
  split at hpr
  · simp at hpr
  · split at hpr
    · exact firstStructured_capture sel pr hpr
    · split at hpr
      · exact legisHeading_capture hs pr hpr
      · exact legisLines_capture ft pr hpr

theorem leginfoSections_capture :
    ∀ ts pr, pr ∈ leginfoSections ts → fromCaCapture pr := by
  intro ts
  induction ts with
  | nil => intro pr hpr; simp [leginfoSections] at hpr
  | cons t rest ih =>
    intro pr hpr
    simp only [leginfoSections] at hpr
    rcases hca : caSectionAt (jsTrim t) with _ | ⟨n, r⟩
    · simp only [hca, List.nil_append] at hpr
      exact ih pr hpr
    · simp only [hca] at hpr
      rcases List.mem_append.mp hpr with h | h
      · split at h
        · simp only [List.mem_singleton] at h
          exact ⟨n, jsTrim t, r, hca, by rw [h]⟩
        · simp only [List.not_mem_nil] at h
      · exact ih pr h

theorem leginfoLinesStep_inv (acc : List ParsedProvision)
    (cur : Option ParsedProvision) (line : List Char)
    (hacc : ∀ q ∈ acc, fromCaCapture q)
    (hcur : ∀ q, cur = some q → fromCaCapture q) :
    (∀ q ∈ (leginfoLinesStep acc cur line).1, fromCaCapture q) ∧
    (∀ q, (leginfoLinesStep acc cur line).2 = some q → fromCaCapture q) := by
  simp only [leginfoLinesStep]
  rcases hca : caSectionAt line with _ | ⟨n, r⟩
  · simp only []
    rcases cur with _ | p
    · exact ⟨hacc, fun q hq => nomatch hq⟩
    · refine ⟨hacc, ?_⟩
      intro q hq
      simp only [Option.some.injEq] at hq
      obtain ⟨n0, s0, r0, h1, h2⟩ := hcur p rfl
      exact ⟨n0, s0, r0, h1, by rw [← hq]; exact h2⟩
  · simp only []
    constructor
    · rcases cur with _ | p
      · exact hacc
      · intro q hq
        simp only [] at hq
        split at hq
        · rcases List.mem_append.mp hq with h | h
          · exact hacc q h
          · simp only [List.mem_singleton] at h
            rw [h]; exact hcur p rfl
        · exact hacc q hq
    · intro q hq
      simp only [Option.some.injEq] at hq
      exact ⟨n, line, r, hca, by rw [← hq]⟩

theorem leginfoLines_capture :
    ∀ ft pr, pr ∈ leginfoLines ft → fromCaCapture pr := by
  intro ft pr hpr
  exact linesGo_inv leginfoLinesStep leginfoLinesStep_inv _ [] Option.none
    (by intro q hq; simp at hq) (by intro q hq; nomatch hq) pr hpr

theorem parseLeginfoBody_capture :
    ∀ cf ts ft pr, pr ∈ parseLeginfoBody cf ts ft → fromCaCapture pr := by
  intro cf ts ft pr hpr
  simp only [parseLeginfoBody] at hpr
  split at hpr
  · simp at hpr
  · split at hpr
    · exact leginfoSections_capture ts pr hpr
    · exact leginfoLines_capture ft pr hpr

theorem provisionsFromPositions_sec (text : List Char) :
    ∀ ps pr, pr ∈ provisionsFromPositions text ps →
      ∃ p, p ∈ ps ∧ pr.sectionNumber = secNumString p.2 := by
  intro ps
  induction ps with
  | nil => intro pr hpr; simp [provisionsFromPositions] at hpr
  | cons a rest ih =>
    obtain ⟨idx, num⟩ := a
    intro pr hpr
    simp only [provisionsFromPositions] at hpr
    rcases List.mem_append.mp hpr with h | h
    · split at h
      · simp only [List.mem_singleton] at h
        exact ⟨(idx, num), List.mem_cons_self _ _, by rw [h]⟩
      · simp only [List.not_mem_nil] at h
    · obtain ⟨p, hp, hsec⟩ := ih pr h
      exact ⟨p, List.mem_cons_of_mem _ hp, hsec⟩

theorem parseSimpleHtml_capture :
    ∀ text pr, pr ∈ parseSimpleHtmlText text → fromSimpleCapture text pr := by
  intro text pr hpr
  simp only [parseSimpleHtmlText] at hpr
  split at hpr
  · simp at hpr
  · rcases hps : sectionPositions text with _ | ⟨a, as⟩
    · simp only [hps, List.mem_singleton] at hpr
      left
      rw [hpr]
    · simp only [hps] at hpr
      right
      obtain ⟨p, hp, hsec⟩ := provisionsFromPositions_sec text (a :: as) pr hpr
      exact ⟨p, by rw [hps]; exact hp, hsec⟩

/-- Claim C10.  Whenever any of the three registered parsers — leginfo,
legislature, simple-html — emits a provision derived from a found section
marker, the emitted `sectionNumber` is exactly the section sign `§`
followed by one space and the captured section-number string; only the
simple-html sentinel for marker-free pages deviates, carrying the
literal `unknown`. -/
theorem parsers_sectionNumber_format :
    (∀ cf sel hs ft pr, pr ∈ parseLegislatureBody cf sel hs ft →
      fromLegisCapture pr) ∧
    (∀ cf ts ft pr, pr ∈ parseLeginfoBody cf ts ft → fromCaCapture pr) ∧
    (∀ text pr, pr ∈ parseSimpleHtmlText text → fromSimpleCapture text pr) :=
  ⟨parseLegislatureBody_capture, parseLeginfoBody_capture, parseSimpleHtml_capture⟩

/-- A structured legislature fragment, a leginfo section fragment, and a
marker-free simple-html page for the witness. -/
def exC10L : List Char := "§ 12 Data breach notice must be given.".data

def exC10C : List Char := "1798.82. Breach notification. A person shall notify.".data

def exC10S : List Char :=
  "this page has no marker and simply describes general policy aims".data

/-- Witness for C10 at concrete pages: the legislature structured
strategy, the leginfo section strategy and the simple-html sentinel each
emit the claimed format. -/
theorem parsers_sectionNumber_format_witness :
    fromLegisCapture
      { sectionNumber := "§ 12".data,
        title := "Data breach notice must be given.".data,
        text := "Data breach notice must be given.".data } ∧
    fromCaCapture
      { sectionNumber := "§ 1798.82".data,
        title := "Breach notification. A person shall notify.".data,
        text := "Breach notification. A person shall notify.".data } ∧
    fromSimpleCapture exC10S
      { sectionNumber := "unknown".data, title := [],
        text := exC10S.take 10000 } :=
  ⟨parsers_sectionNumber_format.1 true [[exC10L]] [] [] _ (by decide),
   parsers_sectionNumber_format.2.1 true [exC10C] [] _ (by decide),
   parsers_sectionNumber_format.2.2 exC10S _ (by decide)⟩
